import Mathlib

set_option maxHeartbeats 1000000

/- Verification development for the tcpwatch capture-split pipeline (the
   electron main process).  External subprocess invocations (tshark, editcap)
   and name-service calls are modelled as oracle functions supplied through
   environment records; the filesystem effect of a split operation is
   modelled as the list of files it writes, each with its byte contents. -/

/-! ## Decimal rendering of stream ids

The splitter names each output file with a template literal
`tcp-stream-${String(id).padStart(5, '0')}.pcapng`.  We embed the decimal
rendering `String(id)` of an unsigned stream id with an explicit fuel
argument so the definition is structurally recursive (`decDigitsAux n n`
always has enough fuel). -/

/-- Decimal digits of a natural number, least significant first (empty for 0),
with fuel. -/
def decDigitsAux : Nat → Nat → List Nat
  | 0, _ => []
  | f + 1, n => if n = 0 then [] else n % 10 :: decDigitsAux f (n / 10)

/-- Decimal digits of a natural number, least significant first; `[]` for 0. -/
def decDigits (n : Nat) : List Nat := decDigitsAux n n

theorem decDigitsAux_zero (f : Nat) : decDigitsAux f 0 = [] := by
  cases f <;> simp [decDigitsAux]

theorem decDigitsAux_congr : ∀ f g n : Nat, n ≤ f → n ≤ g →
    decDigitsAux f n = decDigitsAux g n := by
  intro f
  induction f with
  | zero =>
    intro g n hf _
    have hn : n = 0 := Nat.le_zero.mp hf
    subst hn
    simp [decDigitsAux_zero]
  | succ f ih =>
    intro g n hf hg
    by_cases hn : n = 0
    · subst hn; simp [decDigitsAux_zero]
    · cases g with
      | zero => exact absurd (Nat.le_zero.mp hg) hn
      | succ g =>
        have hdiv : n / 10 < n := Nat.div_lt_self (Nat.pos_of_ne_zero hn) (by norm_num)
        have h1 : n / 10 ≤ f := Nat.lt_succ_iff.mp (Nat.lt_of_lt_of_le hdiv hf)
        have h2 : n / 10 ≤ g := Nat.lt_succ_iff.mp (Nat.lt_of_lt_of_le hdiv hg)
        simp only [decDigitsAux, if_neg hn]
        exact congrArg _ (ih g (n / 10) h1 h2)

theorem decDigits_zero : decDigits 0 = [] := rfl

theorem decDigits_of_ne_zero {n : Nat} (h : n ≠ 0) :
    decDigits n = n % 10 :: decDigits (n / 10) := by
  have hpos : 0 < n := Nat.pos_of_ne_zero h
  cases hn : n with
  | zero => exact absurd hn h
  | succ m =>
    subst hn
    show decDigitsAux (m + 1) (m + 1) = _
    simp only [decDigitsAux, if_neg h]
    have hdiv : (m + 1) / 10 < m + 1 := Nat.div_lt_self (Nat.succ_pos m) (by norm_num)
    exact congrArg _ (decDigitsAux_congr m ((m + 1) / 10) ((m + 1) / 10)
      (Nat.lt_succ_iff.mp hdiv) (Nat.le_refl _))

/-- Value of a little-endian decimal digit list. -/
def leVal : List Nat → Nat
  | [] => 0
  | d :: ds => d + 10 * leVal ds

theorem leVal_decDigits (n : Nat) : leVal (decDigits n) = n := by
  induction n using Nat.strong_induction_on with
  | _ n ih =>
    by_cases hn : n = 0
    · subst hn; simp [decDigits_zero, leVal]
    · rw [decDigits_of_ne_zero hn]
      have hdiv : n / 10 < n := Nat.div_lt_self (Nat.pos_of_ne_zero hn) (by norm_num)
      simp only [leVal, ih (n / 10) hdiv]
      omega

theorem decDigits_injective : Function.Injective decDigits := by
  intro a b h
  have := leVal_decDigits a
  rw [h, leVal_decDigits] at this
  omega

theorem decDigits_lt_ten (n : Nat) : ∀ d ∈ decDigits n, d < 10 := by
  induction n using Nat.strong_induction_on with
  | _ n ih =>
    by_cases hn : n = 0
    · subst hn; simp [decDigits_zero]
    · rw [decDigits_of_ne_zero hn]
      intro d hd
      rcases List.mem_cons.mp hd with h | h
      · subst h; exact Nat.mod_lt n (by norm_num)
      · exact ih (n / 10) (Nat.div_lt_self (Nat.pos_of_ne_zero hn) (by norm_num)) d h

theorem decDigits_length_le (k : Nat) : ∀ n : Nat, n < 10 ^ k →
    (decDigits n).length ≤ k := by
  induction k with
  | zero =>
    intro n hn
    have : n = 0 := by simpa using hn
    subst this; simp [decDigits_zero]
  | succ k ih =>
    intro n hn
    by_cases h0 : n = 0
    · subst h0; simp [decDigits_zero]
    · rw [decDigits_of_ne_zero h0]
      have : n / 10 < 10 ^ k := by
        refine (Nat.div_lt_iff_lt_mul (by norm_num : (0:Nat) < 10)).mpr ?_
        calc n < 10 ^ (k + 1) := hn
        _ = 10 ^ k * 10 := by ring
      simpa using ih (n / 10) this

/-! ## Stream file names

`splitCaptureByTcpStream` writes each stream to
`tcp-stream-${String(id).padStart(5, '0')}.pcapng`;
`buildSplitIndexFromStreamsDir` recovers ids from file names with the
case-insensitive pattern `tcp-stream-(five digits)\.(pcap|pcapng)` anchored at
both ends, and parses the digit group with `Number`. -/

/-- Rendering of one decimal digit as a character (JS digit rendering). -/
def digitChar : Nat → Char
  | 0 => '0' | 1 => '1' | 2 => '2' | 3 => '3' | 4 => '4'
  | 5 => '5' | 6 => '6' | 7 => '7' | 8 => '8' | 9 => '9'
  | _ => '*'

/-- Character list of `String(n)` for an unsigned `n`. -/
def decRepr (n : Nat) : List Char :=
  if n = 0 then ['0'] else (decDigits n).reverse.map digitChar

/-- Character-list form of `s.padStart(5, '0')`. -/
def padStart5 (s : List Char) : List Char :=
  List.replicate (5 - s.length) '0' ++ s

/-- Numeric value of a big-endian digit character list, as computed by
`Number` on an all-digit string (leading zeros permitted). -/
def digitVal (c : Char) : Nat := c.toNat - 48

def bigVal (cs : List Char) : Nat :=
  cs.foldl (fun a c => 10 * a + digitVal c) 0

theorem digitVal_digitChar {d : Nat} (h : d < 10) : digitVal (digitChar d) = d := by
  interval_cases d <;> decide

theorem isDigit_digitChar {d : Nat} (h : d < 10) : (digitChar d).isDigit = true := by
  interval_cases d <;> decide

theorem toLower_digitChar {d : Nat} (h : d < 10) : (digitChar d).toLower = digitChar d := by
  interval_cases d <;> decide

theorem bigValFoldl_digits (l : List Nat) (hl : ∀ d ∈ l, d < 10) (acc : Nat) :
    List.foldl (fun a c => 10 * a + digitVal c) acc (l.reverse.map digitChar) =
      acc * 10 ^ l.length + leVal l := by
  induction l generalizing acc with
  | nil => simp [leVal]
  | cons d ds ih =>
    have hd : d < 10 := hl d (List.mem_cons_self d ds)
    have hds : ∀ x ∈ ds, x < 10 := fun x hx => hl x (List.mem_cons_of_mem d hx)
    simp only [List.reverse_cons, List.map_append, List.foldl_append, List.map_cons,
      List.map_nil, List.foldl_cons, List.foldl_nil, ih hds acc]
    rw [digitVal_digitChar hd]
    simp only [List.length_cons, leVal]
    ring

theorem bigValFoldl_replicate_zero (k : Nat) :
    List.foldl (fun a c => 10 * a + digitVal c) 0 (List.replicate k '0') = 0 := by
  induction k with
  | zero => rfl
  | succ k ih => simpa [List.replicate_succ, digitVal] using ih

theorem bigVal_append_replicate (k : Nat) (cs : List Char) :
    bigVal (List.replicate k '0' ++ cs) =
      List.foldl (fun a c => 10 * a + digitVal c) 0 cs := by
  simp [bigVal, List.foldl_append, bigValFoldl_replicate_zero]

theorem bigVal_padStart5_decRepr (n : Nat) : bigVal (padStart5 (decRepr n)) = n := by
  by_cases h0 : n = 0
  · subst h0; decide
  · simp only [padStart5, decRepr, if_neg h0, bigVal_append_replicate]
    have := bigValFoldl_digits (decDigits n) (decDigits_lt_ten n) 0
    simpa [leVal_decDigits] using this

/-- File name the splitter writes for stream `id`:
`tcp-stream-${String(id).padStart(5, '0')}.pcapng`. -/
def streamFileName (id : Nat) : String :=
  ⟨"tcp-stream-".toList ++ padStart5 (decRepr id) ++ ".pcapng".toList⟩

theorem streamFileName_injective : Function.Injective streamFileName := by
  intro a b h
  have hdata : "tcp-stream-".toList ++ padStart5 (decRepr a) ++ ".pcapng".toList =
      "tcp-stream-".toList ++ padStart5 (decRepr b) ++ ".pcapng".toList := by
    have := congrArg String.data h
    simpa [streamFileName] using this
  have h1 : padStart5 (decRepr a) ++ ".pcapng".toList =
      padStart5 (decRepr b) ++ ".pcapng".toList := by
    have := hdata
    rw [List.append_assoc, List.append_assoc] at this
    exact List.append_cancel_left this
  have h2 : padStart5 (decRepr a) = padStart5 (decRepr b) :=
    List.append_cancel_right h1
  have := congrArg bigVal h2
  rwa [bigVal_padStart5_decRepr, bigVal_padStart5_decRepr] at this

/-- Embedding of the test
`/^tcp-stream-(\d{5})\.(pcap|pcapng)$/i.test(name)` together with
`Number(m[1])` on the digit group.  The regex is case-insensitive, so the
name is lowercased first (digit characters are unaffected by lowercasing,
hence taking the digit group from the lowercased name preserves its value). -/
def parseStreamName (name : String) : Option Nat :=
  let cs := name.toList.map Char.toLower
  if cs.take 11 = "tcp-stream-".toList then
    let restAll := cs.drop 11
    let digs := restAll.take 5
    let rest := restAll.drop 5
    if digs.length = 5 ∧ digs.all Char.isDigit ∧
        (rest = ".pcap".toList ∨ rest = ".pcapng".toList) then
      some (bigVal digs)
    else none
  else none

theorem padStart5_length_of_le {s : List Char} (h : s.length ≤ 5) :
    (padStart5 s).length = 5 := by
  simp [padStart5]
  omega

theorem decRepr_length_le {n : Nat} (h : n < 100000) : (decRepr n).length ≤ 5 := by
  by_cases h0 : n = 0
  · subst h0; simp [decRepr]
  · simp only [decRepr, if_neg h0, List.length_map, List.length_reverse]
    exact decDigits_length_le 5 n (by norm_num at h ⊢; exact h)

theorem mem_decRepr_digit {n : Nat} {c : Char} (hc : c ∈ decRepr n) :
    ∃ d < 10, c = digitChar d := by
  by_cases h0 : n = 0
  · subst h0
    simp only [decRepr, if_true, List.mem_singleton] at hc
    exact ⟨0, by norm_num, by simpa using hc⟩
  · simp only [decRepr, if_neg h0, List.mem_map, List.mem_reverse] at hc
    obtain ⟨d, hd, rfl⟩ := hc
    exact ⟨d, decDigits_lt_ten n d hd, rfl⟩

theorem mem_padStart5_decRepr_digit {n : Nat} {c : Char}
    (hc : c ∈ padStart5 (decRepr n)) : ∃ d < 10, c = digitChar d := by
  simp only [padStart5, List.mem_append, List.mem_replicate] at hc
  rcases hc with ⟨_, rfl⟩ | hc
  · exact ⟨0, by norm_num, rfl⟩
  · exact mem_decRepr_digit hc

theorem toLower_padStart5_decRepr (n : Nat) :
    (padStart5 (decRepr n)).map Char.toLower = padStart5 (decRepr n) := by
  have : (padStart5 (decRepr n)).map Char.toLower = (padStart5 (decRepr n)).map id := by
    apply List.map_congr_left
    intro c hc
    obtain ⟨d, hd, rfl⟩ := mem_padStart5_decRepr_digit hc
    exact toLower_digitChar hd
  rw [this, List.map_id]

theorem parseStreamName_streamFileName {n : Nat} (h : n < 100000) :
    parseStreamName (streamFileName n) = some n := by
  have hlen : (padStart5 (decRepr n)).length = 5 :=
    padStart5_length_of_le (decRepr_length_le h)
  have hpre : ("tcp-stream-".toList : List Char).map Char.toLower =
      "tcp-stream-".toList := by decide
  have hsuf : (".pcapng".toList : List Char).map Char.toLower =
      ".pcapng".toList := by decide
  have h11 : ("tcp-stream-".toList : List Char).length = 11 := by decide
  have hlow : (streamFileName n).toList.map Char.toLower =
      "tcp-stream-".toList ++ (padStart5 (decRepr n) ++ ".pcapng".toList) := by
    show (("tcp-stream-".toList ++ padStart5 (decRepr n) ++ ".pcapng".toList).map
        Char.toLower) = _
    rw [List.append_assoc, List.map_append, List.map_append, hpre, hsuf,
      toLower_padStart5_decRepr]
  have hdigits : (padStart5 (decRepr n)).all Char.isDigit = true := by
    apply List.all_eq_true.mpr
    intro c hc
    obtain ⟨d, hd, rfl⟩ := mem_padStart5_decRepr_digit hc
    exact isDigit_digitChar hd
  simp only [parseStreamName, hlow, List.take_left' h11, List.drop_left' h11,
    List.take_left' hlen, List.drop_left' hlen]
  simp [hlen, hdigits, bigVal_padStart5_decRepr n]

/-! ## Snap length normalization

`normalizeSnapLen(raw, fallback)`: `undefined`/`null` or a value whose string
form trims to empty yields the fallback; otherwise `Math.trunc(Number(raw))`
is taken; a non-finite result yields the fallback; a result `≤ 0` yields `0`
(truncation disabled); otherwise the value is clamped to `[64, 262144]`.
The possible outcomes of `Number(raw)` are embedded as a variant: absent
input, blank-string input, a non-finite number (`NaN`/`±Infinity`), or a
finite number (every finite JS float is a rational, and `Number`, `trunc`
and the comparisons are exact on it). -/

inductive SnapRaw where
  | missing
  | blank
  | nonfinite
  | num (q : ℚ)
deriving DecidableEq

/-- Embedding of `Math.trunc`: round toward zero. -/
def jsTrunc (q : ℚ) : Int := if 0 ≤ q then ⌊q⌋ else ⌈q⌉

def normalizeSnapLen (raw : SnapRaw) (fallback : Int) : Int :=
  match raw with
  | .missing => fallback
  | .blank => fallback
  | .nonfinite => fallback
  | .num q =>
    let n := jsTrunc q
    if n ≤ 0 then 0 else max 64 (min 262144 n)

/-! ## Endpoint metadata and the hostname resolver

`StreamEndpoint` and `StreamMeta` mirror the TypeScript types; JS optional
fields become `Option`.  The resolver `resolveHostnamesForStreamMeta` is
driven by an `RdnsEnv` oracle: `reverse` is the PTR lookup (a rejection or
timeout is an `error`), `lookupService` the secondary name-service lookup.
Per the code, each attempt's rejection is caught (`.catch`) locally, so the
embedded per-address resolution is a total function. -/

structure StreamEndpoint where
  ip : Option String
  port : Option Int
  hostnames : Option (List String)
deriving DecidableEq, Repr

structure StreamMeta where
  src : Option StreamEndpoint
  dst : Option StreamEndpoint
  description : Option String
deriving DecidableEq, Repr

/-- Whitespace test backing the embedding of JS `String.prototype.trim`. -/
def isWhitespaceChar (c : Char) : Bool :=
  c = ' ' ∨ c = '\t' ∨ c = '\n' ∨ c = '\r'

/-- Embedding of JS `s.trim()`: strip leading and trailing whitespace. -/
def jsTrim (s : String) : String :=
  ⟨((s.toList.dropWhile isWhitespaceChar).reverse.dropWhile isWhitespaceChar).reverse⟩

/-- Embedding of JS `s.toLowerCase()` (ASCII case folding suffices here). -/
def jsToLower (s : String) : String :=
  ⟨s.toList.map Char.toLower⟩

/-- Embedding of `pickBestHostname`: first name whose trim is non-empty, trimmed. -/
def pickBestHostname (names : Option (List String)) : Option String :=
  match (names.getD []).find? (fun s => ¬ s = "" ∧ ¬ jsTrim s = "") with
  | some n => some (jsTrim n)
  | none => none

/-- Embedding of `formatEndpoint`: `host (ip):port`, `ip:port`, or `""` when no address. -/
def formatEndpoint : Option StreamEndpoint → String
  | none => ""
  | some ep =>
    match ep.ip with
    | none => ""
    | some ip =>
      if ip = "" then ""
      else
        let addr := match pickBestHostname ep.hostnames with
          | some host => if ¬ host = ip then host ++ " (" ++ ip ++ ")" else ip
          | none => ip
        let portSuffix := match ep.port with
          | some p => ":" ++ toString p
          | none => ""
        addr ++ portSuffix

structure RdnsEnv where
  enabled : Bool
  reverse : String → Except String (List String)
  lookupService : String → Except String String

/-- Per-address resolution: try PTR (rejection caught to `[]`); accept a
non-empty name list; otherwise try the secondary lookup (rejection caught to
`null`) and accept a host whose trim is non-empty and differs from the
literal address. -/
def resolveOneIp (env : RdnsEnv) (ip : String) : Option (List String) :=
  let names := match env.reverse ip with
    | .ok ns => ns
    | .error _ => []
  if ¬ names = [] then some names
  else
    match env.lookupService ip with
    | .error _ => none
    | .ok host =>
      if ¬ host = "" ∧ ¬ jsTrim host = "" ∧ ¬ jsTrim host = ip then some [jsTrim host]
      else none

/-- Embedding of the `cache` map built by the resolver worker pool: one entry per address
that resolved to something.  By the positional-alignment property of
`mapWithConcurrency` (claim C10) the set of cache entries is
schedule-independent, so the cache is modelled as a fold over the
deduplicated address list. -/
def resolveCache (env : RdnsEnv) (ips : List String) : List (String × List String) :=
  ips.foldl (fun cache ip =>
    match resolveOneIp env ip with
    | some names => cache ++ [(ip, names)]
    | none => cache) []

/-- Deduplicated address set (`Set` insertion order) collected from the
`src`/`dst` addresses of the per-stream metadata. -/
def ipSetOfMeta (meta : List (Nat × StreamMeta)) : List String :=
  meta.foldl (fun acc m =>
    let acc := match m.2.src with
      | some ep => match ep.ip with
        | some ip => if ip = "" ∨ ip ∈ acc then acc else acc ++ [ip]
        | none => acc
      | none => acc
    match m.2.dst with
    | some ep => match ep.ip with
      | some ip => if ip = "" ∨ ip ∈ acc then acc else acc ++ [ip]
      | none => acc
    | none => acc) []

/-- Write-back of the cache onto one endpoint:
`if (ep?.ip && cache.has(ip)) ep.hostnames = cache.get(ip)`. -/
def updEp (cache : List (String × List String)) :
    Option StreamEndpoint → Option StreamEndpoint
  | none => none
  | some e =>
    match e.ip with
    | some ip =>
      if ¬ ip = "" then
        match cache.lookup ip with
        | some names => some { e with hostnames := some names }
        | none => some e
      else some e
    | none => some e

/-- Embedding of `resolveHostnamesForStreamMeta`: no-op when disabled, otherwise build the
cache over the deduplicated address set and merge it back onto every
metadata entry. -/
def resolveHostnamesForStreamMeta (env : RdnsEnv) (meta : List (Nat × StreamMeta)) :
    List (Nat × StreamMeta) :=
  if env.enabled = false then meta
  else
    let cache := resolveCache env (ipSetOfMeta meta)
    meta.map (fun m =>
      (m.1, { m.2 with src := updEp cache m.2.src, dst := updEp cache m.2.dst }))

/-! ## The split pipeline

`splitCaptureByTcpStream(captureFile, dumpDir, snapLen)` is embedded as a
pure function of a `SplitEnv` oracle describing the outcomes of its external
invocations:

* `enumerate` — the bulk `tshark -e tcp.stream` listing, already parsed into
  the per-packet stream-id values (the spec fixes StreamIDs as unsigned
  integers); an `error` is a nonzero tool exit;
* `scanRows` — the rows of the one-pass bulk endpoint scan
  (`loadStreamEndpoints`), or its failure;
* `extract` — the primary per-stream extraction
  (`tshark -Y tcp.stream==id -w tmp`): the temporary file's bytes, or a
  nonzero exit;
* `editcap` — `error` when `resolveEditcapPath` throws (tool not found),
  otherwise the truncation tool as a function from input bytes and snaplen
  to output bytes or a nonzero exit;
* `packetCount` — the best-effort `tshark -z io,stat,0` frame count probe.

The split's filesystem effect is the returned list of files (name and
content) in the order they reach their final name; progress events record
the `captureSplitProgress` notifications in emission order. -/

structure StreamRecord where
  id : Nat
  file : String
  src : Option StreamEndpoint
  dst : Option StreamEndpoint
  description : Option String
  sizeBytes : Option Nat
  packetCount : Option Nat
deriving DecidableEq, Repr

structure StreamIndex where
  version : Nat
  captureFile : String
  splitDir : String
  createdAt : String
  streams : List StreamRecord
deriving DecidableEq, Repr

/-- Content of a file the pipeline writes: raw capture bytes, or the
serialized manifest. -/
inductive FileData where
  | raw (bytes : List Nat)
  | manifest (ix : StreamIndex)
deriving DecidableEq

structure ProgressEvent where
  current : Nat
  total : Nat
  streamId : Nat
  file : String
deriving DecidableEq, Repr

structure SplitResult where
  splitDir : String
  files : List (String × FileData)
  index : StreamIndex
  progress : List ProgressEvent
deriving DecidableEq

structure SplitEnv where
  enumerate : Except String (List Nat)
  scanRows : Except String (List (Nat × StreamMeta))
  extract : Nat → Except String (List Nat)
  editcap : Except String (List Nat → Int → Except String (List Nat))
  packetCount : List Nat → Option Nat
  rdns : RdnsEnv
  now : String

def isErr {ε α : Type} : Except ε α → Bool
  | .error _ => true
  | .ok _ => false

/-- Embedding of `applySnapLenToFile`: `error none` when `snapLen ≤ 0` (not applied, no
message), `error (some msg)` when editcap is missing or exits nonzero (not
applied, with a warning message), `ok bytes` when the truncated output was
promoted to the final name. -/
def applySnapLenToFile (editcap : Except String (List Nat → Int → Except String (List Nat)))
    (inputBytes : List Nat) (snapLen : Int) : Except (Option String) (List Nat) :=
  if snapLen ≤ 0 then .error none
  else
    match editcap with
    | .error msg => .error (some msg)
    | .ok run =>
      match run inputBytes snapLen with
      | .error msg => .error (some msg)
      | .ok out => .ok out

/-- First-seen-wins accumulation of the bulk scan rows into the per-stream
metadata map (`if (meta.has(id)) continue`). -/
def loadStreamEndpoints (rows : List (Nat × StreamMeta)) : List (Nat × StreamMeta) :=
  rows.foldl (fun meta r => if (meta.lookup r.1).isSome then meta else meta ++ [r]) []

/-- The post-resolution description pass:
`if (left && right) m.description = left → right`. -/
def addDescriptions (meta : List (Nat × StreamMeta)) : List (Nat × StreamMeta) :=
  meta.map (fun m =>
    let left := formatEndpoint m.2.src
    let right := formatEndpoint m.2.dst
    if ¬ left = "" ∧ ¬ right = "" then
      (m.1, { m.2 with description := some (left ++ " → " ++ right) })
    else m)

/-- Distinct stream ids, ascending:
`Array.from(set).sort((a, b) => a - b)` over the parsed enumeration rows.
JS `Array.prototype.sort` is a stable ascending sort, embedded as insertion
sort. -/
def sortedStreamIds (raw : List Nat) : List Nat :=
  (raw.foldl (fun acc n => if n ∈ acc then acc else acc ++ [n]) []).insertionSort (· ≤ ·)

/-- Final content of one stream's output file: the truncated bytes when
`applySnapLenToFile` applied, otherwise the untruncated temporary bytes
promoted by `fs.renameSync(tmpFile, outFile)`. -/
def outBytesOf (env : SplitEnv) (eff : Int) (tmpBytes : List Nat) : List Nat :=
  match applySnapLenToFile env.editcap tmpBytes eff with
  | .ok b => b
  | .error _ => tmpBytes

/-- StreamRecord pushed for one completed stream (lines building
`index.streams.push({...})`): stats are taken from the file just written
(`fs.statSync` size; best-effort packet count). -/
def mkStreamRecord (env : SplitEnv) (meta : List (Nat × StreamMeta)) (id : Nat)
    (outBytes : List Nat) : StreamRecord :=
  let m := meta.lookup id
  let left := formatEndpoint (m.bind (fun x => x.src))
  let right := formatEndpoint (m.bind (fun x => x.dst))
  { id := id
    file := streamFileName id
    src := m.bind (fun x => x.src)
    dst := m.bind (fun x => x.dst)
    description := if ¬ left = "" ∧ ¬ right = "" then
        some (left ++ " → " ++ right) else none
    sizeBytes := some outBytes.length
    packetCount := env.packetCount outBytes }

/-- The sequential per-stream loop (`for (let i = 0; i < total; i++)`).
Returns the stream files written (in write order), the records pushed, and
the progress events emitted; an extraction failure aborts the whole loop
with that error. -/
def splitLoop (env : SplitEnv) (eff : Int) (meta : List (Nat × StreamMeta)) (total : Nat) :
    List Nat → Nat →
    Except String (List (String × FileData) × List StreamRecord × List ProgressEvent)
  | [], _ => .ok ([], [], [])
  | id :: rest, i =>
    match env.extract id with
    | .error e => .error e
    | .ok tmpBytes =>
      let outBytes := outBytesOf env eff tmpBytes
      match splitLoop env eff meta total rest (i + 1) with
      | .error e => .error e
      | .ok (fs, rs, ps) =>
        .ok ((streamFileName id, .raw outBytes) :: fs,
             mkStreamRecord env meta id outBytes :: rs,
             ⟨i + 1, total, id, streamFileName id⟩ :: ps)

/-- Embedding of `splitCaptureByTcpStream`: enumerate distinct ids (failure aborts), run
the bulk endpoint scan (total failure degrades to an empty map), resolve
hostnames, then sequentially extract each stream, apply the optional
truncation with fallback, collect records and progress, and finally write
`index.json`. -/
def splitCaptureByTcpStream (env : SplitEnv) (captureFile dumpDir : String)
    (snapLen : SnapRaw) : Except String SplitResult :=
  let effectiveSnapLen := normalizeSnapLen snapLen 200
  let splitDir := dumpDir ++ "/tcpwatch-split-" ++ env.now
  match env.enumerate with
  | .error e => .error e
  | .ok raw =>
    let streamIds := sortedStreamIds raw
    let meta0 := match env.scanRows with
      | .ok rows => loadStreamEndpoints rows
      | .error _ => []
    let metaByStream := addDescriptions (resolveHostnamesForStreamMeta env.rdns meta0)
    let total := streamIds.length
    match splitLoop env effectiveSnapLen metaByStream total streamIds 0 with
    | .error e => .error e
    | .ok (files, recs, progress) =>
      let index : StreamIndex :=
        { version := 2
          captureFile := captureFile
          splitDir := splitDir
          createdAt := env.now
          streams := recs }
      .ok { splitDir := splitDir
            files := files ++ [("index.json", .manifest index)]
            index := index
            progress := progress }

/-! ## Manifest reconstruction (`buildSplitIndexFromStreamsDir`)

The directory is modelled by its listing (the file names `readdirSync`
returns; a real directory listing has no duplicate names).  `scanOne` is the
per-stream-file first-packet endpoint scan (`none` covers both the caught
tshark failure and an empty output); `stats` is the per-file
`getPcapFileStats` probe. -/

structure RebuildEnv where
  scanOne : String → Option StreamMeta
  rdns : RdnsEnv
  stats : String → Option Nat × Option Nat
  now : String

/-- Embedding of JS `Map.set`: overwrite in place, append if absent. -/
def setAssoc : List (Nat × StreamMeta) → Nat → StreamMeta → List (Nat × StreamMeta)
  | [], k, v => [(k, v)]
  | (k', v') :: rest, k, v =>
    if k' = k then (k, v) :: rest else (k', v') :: setAssoc rest k v

/-- Comparator `(a, b) => a.id - b.id` on `{id, file}` entries. -/
def idLe (a b : Nat × String) : Prop := a.1 ≤ b.1

instance : DecidableRel idLe := fun a b => Nat.decLe a.1 b.1

instance : IsTotal (Nat × String) idLe := ⟨fun a b => Nat.le_total a.1 b.1⟩

instance : IsTrans (Nat × String) idLe := ⟨fun _ _ _ h1 h2 => Nat.le_trans h1 h2⟩

/-- The matched `{id, file}` entries of a listing, in listing order:
filter by the stream-file pattern, parse the id, drop non-finite ids (never
hit: a five-digit group always parses finite). -/
def matchedStreams (listing : List String) : List (Nat × String) :=
  (listing.filter (fun name => (parseStreamName name).isSome)).filterMap
    (fun name => (parseStreamName name).map (fun id => (id, name)))

/-- Embedding of `buildSplitIndexFromStreamsDir(splitDir)`: throw when no stream files
match; otherwise parse and sort ids, scan each file's endpoints
(best-effort), resolve hostnames, compute descriptions, and write a fresh
`index.json` with `captureFile: "(imported)"`.  Returns the index and the
directory listing after the write. -/
def buildSplitIndexFromStreamsDir (env : RebuildEnv) (splitDir : String)
    (listing : List String) : Except String (StreamIndex × List String) :=
  let streamFiles := listing.filter (fun name => (parseStreamName name).isSome)
  if streamFiles.isEmpty then
    .error ("No tcp-stream-*.pcapng files found in " ++ splitDir)
  else
    let streams := (matchedStreams listing).insertionSort idLe
    let meta0 := streams.foldl (fun m s =>
      match env.scanOne s.2 with
      | none => m
      | some sm => setAssoc m s.1 sm) []
    let metaByStream := addDescriptions (resolveHostnamesForStreamMeta env.rdns meta0)
    let index : StreamIndex :=
      { version := 2
        captureFile := "(imported)"
        splitDir := splitDir
        createdAt := env.now
        streams := streams.map (fun s =>
          let st := env.stats s.2
          let m := metaByStream.lookup s.1
          { id := s.1
            file := s.2
            src := m.bind (fun x => x.src)
            dst := m.bind (fun x => x.dst)
            description := m.bind (fun x => x.description)
            sizeBytes := st.1
            packetCount := st.2 }) }
    .ok (index, if "index.json" ∈ listing then listing else listing ++ ["index.json"])

/-! ## The `tcpwatch:readSplitIndex` handler prefix

The handler's filesystem and path operations are oracles in an `FsView`;
`SplitStatus` is the `captureStatus` fields the guard reads.  The embedding
covers the handler up to the in-progress guard: its result is either a
thrown error, the auto-split branch for a capture file, or the decision to
proceed (with the directory and manifest path it will use). -/

structure FsView where
  pathExists : String → Bool
  isFile : String → Bool
  isDir : String → Bool
  dirname : String → String
  join : String → String → String
  resolve : String → String
  extname : String → String

structure SplitStatus where
  splitting : Bool
  splitDir : Option String

/-- Embedding of `isPcapFile`: extension (lowercased) is `.pcap` or `.pcapng`. -/
def isPcapFile (v : FsView) (p : String) : Bool :=
  let ext := jsToLower (v.extname p)
  ext = ".pcap" ∨ ext = ".pcapng"

inductive ReadStep where
  | autoSplit
  | proceed (dir indexPath : String)
deriving DecidableEq

/-- Embeds `ipcMain.handle('tcpwatch:readSplitIndex')` up to (and including)
the still-in-progress guard. -/
def readSplitIndexEntry (v : FsView) (st : SplitStatus) (input0 : String) :
    Except String ReadStep :=
  let input := jsTrim input0
  if input = "" then .error "Split folder or capture file is required"
  else if ¬ v.pathExists input then .error ("Path not found: " ++ input)
  else if v.isFile input ∧ isPcapFile v input then .ok .autoSplit
  else
    let dir := if v.isDir input then input else v.dirname input
    let indexPath := v.join dir "index.json"
    let sameSplitDir : Bool := st.splitting &&
      match st.splitDir with
      | some d => decide (v.resolve d = v.resolve dir)
      | none => false
    if ¬ v.pathExists indexPath ∧ sameSplitDir then
      .error ("Split is still in progress for " ++ dir ++
        ". Please wait for splitting to finish and try again.")
    else .ok (.proceed dir indexPath)

/-! ## `mapWithConcurrency` as a nondeterministic machine

`mapWithConcurrency(items, limit, fn)` spawns `max(1, limit)` async workers
sharing a `nextIndex` counter and a pre-sized `results` array.  In the JS
event loop the counter read-and-increment (plus the bounds check and the
call of `fn`) is one synchronous block, and the assignment
`results[idx] = value` on completion is another; the machine below makes
every such block a separate atomic step and lets an arbitrary schedule pick
which worker steps next, which only adds interleavings relative to the real
event loop.  `log` records the indices for which `fn` was invoked, in
invocation order. -/

structure MapCCState (R : Type) where
  next : Nat
  holding : List (Option Nat)
  wdone : List Bool
  results : List (Option R)
  log : List Nat
deriving DecidableEq

/-- One scheduler choice: worker `w` takes its next atomic step (no-op when
`w` is not a worker or has returned). -/
def wStep {α R : Type} (items : List α) (fn : α → R) (s : MapCCState R) (w : Nat) :
    MapCCState R :=
  match s.holding[w]? with
  | none => s
  | some (some idx) =>
    { s with results := s.results.set idx (items[idx]?.map fn),
             holding := s.holding.set w none }
  | some none =>
    if s.wdone.getD w false then s
    else if s.next < items.length then
      { s with next := s.next + 1,
               holding := s.holding.set w (some s.next),
               log := s.log ++ [s.next] }
    else
      { s with next := s.next + 1, wdone := s.wdone.set w true }

def initMapCCState (R : Type) (workers n : Nat) : MapCCState R :=
  { next := 0
    holding := List.replicate workers none
    wdone := List.replicate workers false
    results := List.replicate n none
    log := [] }

/-- Runs the workers of `mapWithConcurrency` under a given schedule. -/
def runMapCC {α R : Type} (items : List α) (fn : α → R) (limit : Int)
    (sched : List Nat) : MapCCState R :=
  sched.foldl (wStep items fn) (initMapCCState R (max 1 limit).toNat items.length)

/-- Predicate for `Promise.all(workers)` having resolved: every worker has returned. -/
def allWorkersDone {R : Type} (s : MapCCState R) : Bool :=
  s.wdone.all (fun b => b)

/-! ## Lemmas: the enumeration's deduplicated ascending id list -/

theorem foldlDedup_mem (raw : List Nat) : ∀ (acc : List Nat) (x : Nat),
    x ∈ raw.foldl (fun acc n => if n ∈ acc then acc else acc ++ [n]) acc ↔
      x ∈ acc ∨ x ∈ raw := by
  induction raw with
  | nil => intro acc x; simp
  | cons n rest ih =>
    intro acc x
    simp only [List.foldl_cons]
    by_cases hn : n ∈ acc
    · rw [if_pos hn, ih acc x]
      constructor
      · rintro (h | h)
        · exact Or.inl h
        · exact Or.inr (List.mem_cons_of_mem n h)
      · rintro (h | h)
        · exact Or.inl h
        · rcases List.mem_cons.mp h with rfl | h
          · exact Or.inl hn
          · exact Or.inr h
    · rw [if_neg hn, ih (acc ++ [n]) x]
      simp only [List.mem_append, List.mem_singleton, List.mem_cons]
      tauto

theorem foldlDedup_nodup (raw : List Nat) : ∀ acc : List Nat, acc.Nodup →
    (raw.foldl (fun acc n => if n ∈ acc then acc else acc ++ [n]) acc).Nodup := by
  induction raw with
  | nil => intro acc h; simpa using h
  | cons n rest ih =>
    intro acc hacc
    simp only [List.foldl_cons]
    by_cases hn : n ∈ acc
    · rw [if_pos hn]; exact ih acc hacc
    · rw [if_neg hn]
      apply ih
      simp [List.nodup_append, hacc, hn]

theorem mem_sortedStreamIds {raw : List Nat} {x : Nat} :
    x ∈ sortedStreamIds raw ↔ x ∈ raw := by
  unfold sortedStreamIds
  rw [List.mem_insertionSort]
  simpa using foldlDedup_mem raw [] x

theorem sortedStreamIds_nodup (raw : List Nat) : (sortedStreamIds raw).Nodup := by
  unfold sortedStreamIds
  exact ((List.perm_insertionSort _ _).nodup_iff).mpr
    (foldlDedup_nodup raw [] List.nodup_nil)

theorem sortedStreamIds_sorted_le (raw : List Nat) :
    (sortedStreamIds raw).Sorted (· ≤ ·) :=
  List.sorted_insertionSort _ _

theorem sortedStreamIds_sorted_lt (raw : List Nat) :
    (sortedStreamIds raw).Sorted (· < ·) :=
  (sortedStreamIds_sorted_le raw).lt_of_le (sortedStreamIds_nodup raw)

/-! ## Lemmas: behavior of the sequential extraction loop -/

theorem splitLoop_isErr (env : SplitEnv) (eff : Int) (meta : List (Nat × StreamMeta))
    (total : Nat) : ∀ (ids : List Nat) (i : Nat),
    isErr (splitLoop env eff meta total ids i) = true ↔
      ∃ id ∈ ids, isErr (env.extract id) = true := by
  intro ids
  induction ids with
  | nil => intro i; simp [splitLoop, isErr]
  | cons id rest ih =>
    intro i
    simp only [splitLoop]
    cases hx : env.extract id with
    | error e =>
      refine iff_of_true rfl ⟨id, List.mem_cons_self id rest, ?_⟩
      rw [hx]
      rfl
    | ok tmpBytes =>
      cases hl : splitLoop env eff meta total rest (i + 1) with
      | error e =>
        refine iff_of_true rfl ?_
        obtain ⟨x, hx1, hx2⟩ := (ih (i + 1)).mp (by rw [hl]; rfl)
        exact ⟨x, List.mem_cons_of_mem id hx1, hx2⟩
      | ok triple =>
        refine iff_of_false (by simp [isErr]) ?_
        rintro ⟨x, hx1, hx2⟩
        rcases List.mem_cons.mp hx1 with rfl | hmem
        · rw [hx] at hx2; simp [isErr] at hx2
        · have := (ih (i + 1)).mpr ⟨x, hmem, hx2⟩
          rw [hl] at this
          simp [isErr] at this

theorem splitLoop_ok (env : SplitEnv) (eff : Int) (meta : List (Nat × StreamMeta))
    (total : Nat) : ∀ (ids : List Nat) (i : Nat)
    (hex : ∀ id ∈ ids, isErr (env.extract id) = false),
    splitLoop env eff meta total ids i =
      .ok (ids.map (fun id =>
             (streamFileName id, FileData.raw (outBytesOf env eff ((env.extract id).toOption.getD [])))),
           ids.map (fun id =>
             mkStreamRecord env meta id (outBytesOf env eff ((env.extract id).toOption.getD []))),
           (ids.enumFrom i).map (fun p =>
             ⟨p.1 + 1, total, p.2, streamFileName p.2⟩)) := by
  intro ids
  induction ids with
  | nil => intro i _; simp [splitLoop, List.enumFrom]
  | cons id rest ih =>
    intro i hex
    have hid : isErr (env.extract id) = false := hex id (List.mem_cons_self id rest)
    cases hx : env.extract id with
    | error e => rw [hx] at hid; exact absurd hid (by simp [isErr])
    | ok tmpBytes =>
      simp only [splitLoop, hx]
      rw [ih (i + 1) (fun x hx' => hex x (List.mem_cons_of_mem id hx'))]
      simp only [List.enumFrom, List.map_cons, hx]
      exact rfl

/-! ## Claim C8 — snapLen normalization (corrected) -/

/-- C8 counterexample: the claim says every finite value `> 0` is clamped
into `[64, 262144]`, but the input `1/2` is finite and `> 0` while
`normalizeSnapLen` truncates it toward zero first (`Math.trunc(0.5) = 0`)
and returns `0`, which is not in the claimed range. -/
theorem C8_counterexample :
    (0 : ℚ) < 1 / 2 ∧
    normalizeSnapLen (SnapRaw.num (1 / 2)) 200 = 0 ∧
    ¬ (64 ≤ normalizeSnapLen (SnapRaw.num (1 / 2)) 200 ∧
       normalizeSnapLen (SnapRaw.num (1 / 2)) 200 ≤ 262144) := by
  have htr : jsTrunc (1 / 2 : ℚ) = 0 := by
    rw [jsTrunc, if_pos (by norm_num)]
    rw [Int.floor_eq_zero_iff]
    constructor <;> norm_num
  have hval : normalizeSnapLen (SnapRaw.num (1 / 2)) 200 = 0 := by
    simp only [normalizeSnapLen]
    rw [htr]
    norm_num
  refine ⟨by norm_num, hval, ?_⟩
  rw [hval]
  omega

/-- C8 (amended): `normalizeSnapLen` is total and enforces the documented
range: any input whose truncation toward zero is `≤ 0` (every value `≤ 0`,
and also every finite value in `(0, 1)`) yields `0`; a missing, blank or
non-finite input yields the default `200`; a finite input whose truncation
is `≥ 1` is clamped into `[64, 262144]`; hence the effective snapLen used by
a split is always either `0` or within `[64, 262144]`. -/
theorem C8_normalizeSnapLen_amended (raw : SnapRaw) :
    (normalizeSnapLen raw 200 = 0 ∨
      (64 ≤ normalizeSnapLen raw 200 ∧ normalizeSnapLen raw 200 ≤ 262144)) ∧
    ((raw = .missing ∨ raw = .blank ∨ raw = .nonfinite) →
      normalizeSnapLen raw 200 = 200) ∧
    (∀ q : ℚ, raw = .num q → jsTrunc q ≤ 0 → normalizeSnapLen raw 200 = 0) ∧
    (∀ q : ℚ, raw = .num q → q ≤ 0 → normalizeSnapLen raw 200 = 0) ∧
    (∀ q : ℚ, raw = .num q → 1 ≤ jsTrunc q →
      normalizeSnapLen raw 200 = max 64 (min 262144 (jsTrunc q)) ∧
      64 ≤ normalizeSnapLen raw 200 ∧ normalizeSnapLen raw 200 ≤ 262144) := by
  have htr_np : ∀ q : ℚ, q ≤ 0 → jsTrunc q ≤ 0 := by
    intro q hq
    rw [jsTrunc]
    by_cases h0 : 0 ≤ q
    · rw [if_pos h0]
      have hq0 : q = 0 := le_antisymm hq h0
      simp [hq0]
    · rw [if_neg h0]
      exact Int.ceil_le.mpr (by exact_mod_cast hq)
  cases raw with
  | missing =>
    refine ⟨Or.inr ⟨by norm_num [normalizeSnapLen], by norm_num [normalizeSnapLen]⟩,
      fun _ => rfl, ?_, ?_, ?_⟩ <;> (intro q h; cases h)
  | blank =>
    refine ⟨Or.inr ⟨by norm_num [normalizeSnapLen], by norm_num [normalizeSnapLen]⟩,
      fun _ => rfl, ?_, ?_, ?_⟩ <;> (intro q h; cases h)
  | nonfinite =>
    refine ⟨Or.inr ⟨by norm_num [normalizeSnapLen], by norm_num [normalizeSnapLen]⟩,
      fun _ => rfl, ?_, ?_, ?_⟩ <;> (intro q h; cases h)
  | num q =>
    have heval : normalizeSnapLen (SnapRaw.num q) 200 =
        if jsTrunc q ≤ 0 then 0 else max 64 (min 262144 (jsTrunc q)) := rfl
    refine ⟨?_, ?_, ?_, ?_, ?_⟩
    · rw [heval]
      by_cases h : jsTrunc q ≤ 0
      · exact Or.inl (by rw [if_pos h])
      · refine Or.inr ?_
        rw [if_neg h]
        omega
    · rintro (h | h | h) <;> cases h
    · intro q' hq' h
      cases hq'
      rw [heval, if_pos h]
    · intro q' hq' h
      cases hq'
      rw [heval, if_pos (htr_np q h)]
    · intro q' hq' h
      cases hq'
      have hn : ¬ jsTrunc q ≤ 0 := by omega
      rw [heval, if_neg hn]
      refine ⟨rfl, by omega, by omega⟩

/-- C8 witness: the amended theorem applied at the concrete inputs `100`
(clamp branch), `missing` (fallback branch) and `-5` (zero branch). -/
theorem C8_normalizeSnapLen_witness :
    normalizeSnapLen (SnapRaw.num 100) 200 = 100 ∧
    normalizeSnapLen SnapRaw.missing 200 = 200 ∧
    normalizeSnapLen (SnapRaw.num (-5)) 200 = 0 := by
  have h100 : jsTrunc (100 : ℚ) = 100 := by
    rw [jsTrunc, if_pos (by norm_num)]
    norm_num
  refine ⟨?_, ?_, ?_⟩
  · have h := (C8_normalizeSnapLen_amended (SnapRaw.num 100)).2.2.2.2 100 rfl
      (by rw [h100]; norm_num)
    rw [h.1, h100]
    decide
  · exact (C8_normalizeSnapLen_amended SnapRaw.missing).2.1 (Or.inl rfl)
  · exact (C8_normalizeSnapLen_amended (SnapRaw.num (-5))).2.2.2.1 (-5) rfl (by norm_num)

/-! ## Claim C9 — resolver strategy -/

theorem ipSetFold_nodup (meta : List (Nat × StreamMeta)) : ∀ acc : List String,
    acc.Nodup →
    (meta.foldl (fun acc m =>
      let acc := match m.2.src with
        | some ep => match ep.ip with
          | some ip => if ip = "" ∨ ip ∈ acc then acc else acc ++ [ip]
          | none => acc
        | none => acc
      match m.2.dst with
      | some ep => match ep.ip with
        | some ip => if ip = "" ∨ ip ∈ acc then acc else acc ++ [ip]
        | none => acc
      | none => acc) acc).Nodup := by
  induction meta with
  | nil => intro acc h; simpa using h
  | cons m rest ih =>
    intro acc hacc
    simp only [List.foldl_cons]
    apply ih
    have step : ∀ (a : List String) (ep : Option StreamEndpoint), a.Nodup →
        (match ep with
          | some ep => match ep.ip with
            | some ip => if ip = "" ∨ ip ∈ a then a else a ++ [ip]
            | none => a
          | none => a).Nodup := by
      intro a ep ha
      cases ep with
      | none => exact ha
      | some e =>
        obtain ⟨ip0, port0, host0⟩ := e
        cases ip0 with
        | none => exact ha
        | some ip =>
          show (if ip = "" ∨ ip ∈ a then a else a ++ [ip]).Nodup
          by_cases hmem : ip = "" ∨ ip ∈ a
          · rw [if_pos hmem]; exact ha
          · rw [if_neg hmem]
            push_neg at hmem
            simp [List.nodup_append, ha, hmem.2]
    exact step _ _ (step acc m.2.src hacc)

theorem C9_resolveOneIp_nodup_helper (meta : List (Nat × StreamMeta)) :
    (ipSetOfMeta meta).Nodup :=
  ipSetFold_nodup meta [] List.nodup_nil

theorem resolveCacheFold_nil (env : RdnsEnv) : ∀ (ips : List String)
    (acc : List (String × List String)),
    (∀ ip ∈ ips, resolveOneIp env ip = none) →
    ips.foldl (fun cache ip =>
      match resolveOneIp env ip with
      | some names => cache ++ [(ip, names)]
      | none => cache) acc = acc := by
  intro ips
  induction ips with
  | nil => intro acc _; rfl
  | cons ip rest ih =>
    intro acc h
    simp only [List.foldl_cons, h ip (List.mem_cons_self ip rest)]
    exact ih acc (fun x hx => h x (List.mem_cons_of_mem ip hx))

theorem updEp_nil_cache : ∀ ep : Option StreamEndpoint, updEp [] ep = ep := by
  intro ep
  cases ep with
  | none => rfl
  | some e =>
    obtain ⟨ip0, port0, host0⟩ := e
    cases ip0 with
    | none => rfl
    | some ip =>
      show (if ¬ ip = "" then _ else _) = _
      by_cases h : ip = ""
      · rw [if_neg (by simpa using h)]
      · rw [if_pos (by simpa using h)]

/-- C9: per deduplicated address, the resolver first attempts the PTR
lookup and accepts a non-empty name list outright (the secondary lookup
cannot change the outcome); otherwise the secondary result is accepted
exactly when its trimmed value is non-empty and differs from the literal
address; and since every per-address rejection is caught, an environment in
which every lookup fails still completes, leaving the metadata unchanged. -/
theorem C9_resolver_strategy (env : RdnsEnv) (meta : List (Nat × StreamMeta)) :
    (ipSetOfMeta meta).Nodup ∧
    (∀ ip ns, env.reverse ip = .ok ns → ns ≠ [] →
      resolveOneIp env ip = some ns ∧
      ∀ ls2 : String → Except String String,
        resolveOneIp { env with lookupService := ls2 } ip = some ns) ∧
    (∀ ip, ((env.reverse ip).toOption.getD []) = [] →
      resolveOneIp env ip =
        match env.lookupService ip with
        | .error _ => none
        | .ok host =>
          if ¬ host = "" ∧ ¬ jsTrim host = "" ∧ ¬ jsTrim host = ip then some [jsTrim host]
          else none) ∧
    (env.enabled = true →
      (∀ ip, isErr (env.reverse ip) = true) →
      (∀ ip, isErr (env.lookupService ip) = true) →
      resolveHostnamesForStreamMeta env meta = meta) := by
  refine ⟨C9_resolveOneIp_nodup_helper meta, ?_, ?_, ?_⟩
  · intro ip ns hok hne
    constructor
    · simp only [resolveOneIp, hok]
      rw [if_pos (by simpa using hne)]
    · intro ls2
      simp only [resolveOneIp, hok]
      rw [if_pos (by simpa using hne)]
  · intro ip hempty
    cases hrev : env.reverse ip with
    | error e =>
      simp only [resolveOneIp, hrev]
      rw [if_neg (by simp)]
    | ok ns =>
      rw [hrev] at hempty
      simp only [Except.toOption, Option.getD] at hempty
      subst hempty
      simp only [resolveOneIp, hrev]
      rw [if_neg (by simp)]
  · intro hen hrev hls
    have hone : ∀ ip, resolveOneIp env ip = none := by
      intro ip
      cases h1 : env.reverse ip with
      | ok ns => have := hrev ip; rw [h1] at this; simp [isErr] at this
      | error e =>
        cases h2 : env.lookupService ip with
        | ok host => have := hls ip; rw [h2] at this; simp [isErr] at this
        | error e2 =>
          simp only [resolveOneIp, h1, h2]
          rw [if_neg (by simp)]
    have hcache : resolveCache env (ipSetOfMeta meta) = [] :=
      resolveCacheFold_nil env _ [] (fun ip _ => hone ip)
    simp only [resolveHostnamesForStreamMeta, hen]
    rw [if_neg (by simp)]
    rw [hcache]
    have : ∀ m : Nat × StreamMeta,
        (m.1, { m.2 with src := updEp [] m.2.src, dst := updEp [] m.2.dst }) = m := by
      intro m
      rw [updEp_nil_cache, updEp_nil_cache]
    simp only [this, List.map_id]
    exact List.map_id meta

/-- C9 witness: the strategy theorem applied to a concrete environment with
one PTR-resolvable address and one address resolvable only through the
secondary lookup. -/
theorem C9_resolver_strategy_witness :
    resolveOneIp
      { enabled := true
        reverse := fun ip => if ip = "10.0.0.1" then .ok ["host-a.example"] else .error "fail"
        lookupService := fun _ => .ok "printer.local" } "10.0.0.1" =
        some ["host-a.example"] ∧
    resolveOneIp
      { enabled := true
        reverse := fun ip => if ip = "10.0.0.1" then .ok ["host-a.example"] else .error "fail"
        lookupService := fun _ => .ok "printer.local" } "10.0.0.2" =
        some ["printer.local"] := by
  constructor
  · exact ((C9_resolver_strategy
      { enabled := true
        reverse := fun ip => if ip = "10.0.0.1" then .ok ["host-a.example"] else .error "fail"
        lookupService := fun _ => .ok "printer.local" } []).2.1 "10.0.0.1"
      ["host-a.example"] rfl (by decide)).1
  · have h := (C9_resolver_strategy
      { enabled := true
        reverse := fun ip => if ip = "10.0.0.1" then .ok ["host-a.example"] else .error "fail"
        lookupService := fun _ => .ok "printer.local" } []).2.2.1 "10.0.0.2" rfl
    rw [h]
    rfl

/-! ## Characterizing a successful split -/

/-- The enriched metadata map a split builds before its extraction loop. -/
def splitMeta (env : SplitEnv) : List (Nat × StreamMeta) :=
  addDescriptions (resolveHostnamesForStreamMeta env.rdns
    (match env.scanRows with
     | .ok rows => loadStreamEndpoints rows
     | .error _ => []))

/-- Final bytes of one stream's output file in a split. -/
def splitOutBytes (env : SplitEnv) (snap : SnapRaw) (id : Nat) : List Nat :=
  outBytesOf env (normalizeSnapLen snap 200) ((env.extract id).toOption.getD [])

/-- The manifest a successful split persists. -/
def splitIndexOf (env : SplitEnv) (cf dd : String) (snap : SnapRaw)
    (raw : List Nat) : StreamIndex :=
  { version := 2
    captureFile := cf
    splitDir := dd ++ "/tcpwatch-split-" ++ env.now
    createdAt := env.now
    streams := (sortedStreamIds raw).map (fun id =>
      mkStreamRecord env (splitMeta env) id (splitOutBytes env snap id)) }

/-- Distinct sorted stream ids found by the enumeration step (empty on
enumeration failure, where the split aborts anyway). -/
def enumIds (env : SplitEnv) : List Nat :=
  match env.enumerate with
  | .ok raw => sortedStreamIds raw
  | .error _ => []

theorem splitCapture_ok_eq (env : SplitEnv) (cf dd : String) (snap : SnapRaw)
    (raw : List Nat) (henum : env.enumerate = .ok raw)
    (hex : ∀ id ∈ sortedStreamIds raw, isErr (env.extract id) = false) :
    splitCaptureByTcpStream env cf dd snap =
      .ok { splitDir := dd ++ "/tcpwatch-split-" ++ env.now
            files := (sortedStreamIds raw).map (fun id =>
                (streamFileName id, FileData.raw (splitOutBytes env snap id))) ++
              [("index.json", FileData.manifest (splitIndexOf env cf dd snap raw))]
            index := splitIndexOf env cf dd snap raw
            progress := ((sortedStreamIds raw).enumFrom 0).map (fun p =>
                ⟨p.1 + 1, (sortedStreamIds raw).length, p.2, streamFileName p.2⟩) } := by
  have hloop := splitLoop_ok env (normalizeSnapLen snap 200) (splitMeta env)
    (sortedStreamIds raw).length (sortedStreamIds raw) 0 hex
  simp only [splitMeta] at hloop
  simp only [splitCaptureByTcpStream, henum, splitIndexOf, splitMeta, splitOutBytes]
  rw [hloop]

theorem splitCapture_isErr (env : SplitEnv) (cf dd : String) (snap : SnapRaw) :
    isErr (splitCaptureByTcpStream env cf dd snap) = true ↔
      isErr env.enumerate = true ∨
        ∃ id ∈ enumIds env, isErr (env.extract id) = true := by
  cases henum : env.enumerate with
  | error e =>
    refine iff_of_true ?_ (Or.inl rfl)
    simp only [splitCaptureByTcpStream, henum]
    rfl
  | ok raw =>
    have hids : enumIds env = sortedStreamIds raw := by
      simp [enumIds, henum]
    simp only [splitCaptureByTcpStream, henum, hids]
    cases hloop : splitLoop env (normalizeSnapLen snap 200)
        (addDescriptions (resolveHostnamesForStreamMeta env.rdns
          (match env.scanRows with
           | .ok rows => loadStreamEndpoints rows
           | .error _ => [])))
        (sortedStreamIds raw).length (sortedStreamIds raw) 0 with
    | error e =>
      refine iff_of_true rfl (Or.inr ?_)
      have := (splitLoop_isErr env (normalizeSnapLen snap 200) _ _ (sortedStreamIds raw) 0).mp
        (by rw [hloop]; rfl)
      exact this
    | ok triple =>
      refine iff_of_false (by simp [isErr]) ?_
      rintro (h | ⟨id, hmem, hid⟩)
      · simp [isErr] at h
      · have h2 := (splitLoop_isErr env (normalizeSnapLen snap 200)
          (addDescriptions (resolveHostnamesForStreamMeta env.rdns
            (match env.scanRows with
             | .ok rows => loadStreamEndpoints rows
             | .error _ => [])))
          (sortedStreamIds raw).length (sortedStreamIds raw) 0).mpr ⟨id, hmem, hid⟩
        rw [hloop] at h2
        simp [isErr] at h2

/-! ## Projections and concrete environments used by witnesses -/

def splitFilesOf (x : Except String SplitResult) : List (String × FileData) :=
  match x with
  | .ok r => r.files
  | .error _ => []

def splitRecordsOf (x : Except String SplitResult) : List StreamRecord :=
  match x with
  | .ok r => r.index.streams
  | .error _ => []

def splitProgressOf (x : Except String SplitResult) : List ProgressEvent :=
  match x with
  | .ok r => r.progress
  | .error _ => []

def rdnsOff : RdnsEnv :=
  { enabled := false
    reverse := fun _ => .error "off"
    lookupService := fun _ => .error "off" }

/-- Environment with one stream (id 3), a failing bulk scan, and a missing
truncation tool. -/
def envC1 : SplitEnv :=
  { enumerate := .ok [3]
    scanRows := .error "scan fail"
    extract := fun _ => .ok [1, 2, 3]
    editcap := .error "editcap not found"
    packetCount := fun _ => none
    rdns := rdnsOff
    now := "T" }

/-- Environment whose enumeration fails. -/
def envErrEnum : SplitEnv :=
  { enumerate := .error "tshark stream listing failed"
    scanRows := .ok []
    extract := fun _ => .ok []
    editcap := .error "editcap not found"
    packetCount := fun _ => none
    rdns := rdnsOff
    now := "T" }

/-- Environment with duplicate, unsorted enumeration rows for ids 3 and 7. -/
def envC3 : SplitEnv :=
  { enumerate := .ok [7, 3, 7]
    scanRows := .error "scan fail"
    extract := fun _ => .ok [9]
    editcap := .error "editcap not found"
    packetCount := fun _ => none
    rdns := rdnsOff
    now := "T" }

theorem mkStreamRecord_id (env : SplitEnv) (meta : List (Nat × StreamMeta))
    (id : Nat) (outB : List Nat) : (mkStreamRecord env meta id outB).id = id := rfl

theorem mkStreamRecord_file (env : SplitEnv) (meta : List (Nat × StreamMeta))
    (id : Nat) (outB : List Nat) :
    (mkStreamRecord env meta id outB).file = streamFileName id := rfl

theorem resolveHostnames_nil (e : RdnsEnv) :
    resolveHostnamesForStreamMeta e [] = [] := by
  unfold resolveHostnamesForStreamMeta
  split <;> rfl

theorem splitMeta_of_scan_error (env : SplitEnv) (msg : String)
    (h : env.scanRows = .error msg) : splitMeta env = [] := by
  simp only [splitMeta, h, resolveHostnames_nil]
  rfl

theorem mkStreamRecord_empty_meta (env : SplitEnv) (id : Nat) (outB : List Nat) :
    (mkStreamRecord env [] id outB).src = none ∧
    (mkStreamRecord env [] id outB).dst = none ∧
    (mkStreamRecord env [] id outB).description = none :=
  ⟨rfl, rfl, rfl⟩

theorem splitCapture_ok_no_extract_err (env : SplitEnv) (cf dd : String)
    (snap : SnapRaw) (r : SplitResult)
    (h : splitCaptureByTcpStream env cf dd snap = .ok r) :
    ∃ raw, env.enumerate = .ok raw ∧
      ∀ id ∈ sortedStreamIds raw, isErr (env.extract id) = false := by
  cases henum : env.enumerate with
  | error e =>
    exfalso
    have hbad := (splitCapture_isErr env cf dd snap).mpr (Or.inl (by rw [henum]; rfl))
    rw [h] at hbad
    simp [isErr] at hbad
  | ok raw =>
    refine ⟨raw, rfl, ?_⟩
    intro id hmem
    by_contra hbad
    have hb : isErr (env.extract id) = true := by
      cases hval : isErr (env.extract id) with
      | true => rfl
      | false => exact absurd hval hbad
    have := (splitCapture_isErr env cf dd snap).mpr
      (Or.inr ⟨id, by simpa [enumIds, henum] using hmem, hb⟩)
    rw [h] at this
    simp [isErr] at this

/-! ## Claim C1 — truncation fallback (confirmed) -/

/-- C1: for a split whose effective snapLen is positive, under successful
enumeration and extraction, if the truncation step fails for a stream
(editcap missing or exiting nonzero, i.e. `applySnapLenToFile` returns "not
applied" with a message), that stream's untruncated extraction bytes are
promoted to its final file name, the stream still has a StreamRecord in the
manifest, and the split completes without error. -/
theorem C1_truncation_fallback (env : SplitEnv) (cf dd : String) (snap : SnapRaw)
    (raw : List Nat) (henum : env.enumerate = .ok raw)
    (heff : 0 < normalizeSnapLen snap 200)
    (hex : ∀ id ∈ sortedStreamIds raw, isErr (env.extract id) = false)
    (s : Nat) (bs : List Nat) (hs : s ∈ sortedStreamIds raw)
    (hsb : env.extract s = .ok bs) (m : String)
    (htr : applySnapLenToFile env.editcap bs (normalizeSnapLen snap 200) =
      .error (some m)) :
    ∃ r, splitCaptureByTcpStream env cf dd snap = .ok r ∧
      (streamFileName s, FileData.raw bs) ∈ r.files ∧
      ∃ rec ∈ r.index.streams, rec.id = s ∧ rec.file = streamFileName s := by
  refine ⟨_, splitCapture_ok_eq env cf dd snap raw henum hex, ?_, ?_⟩
  · apply List.mem_append_left
    have hb : splitOutBytes env snap s = bs := by
      simp only [splitOutBytes, hsb, Except.toOption, Option.getD_some, outBytesOf, htr]
    refine List.mem_map.mpr ⟨s, hs, ?_⟩
    rw [hb]
  · show ∃ rec ∈ (splitIndexOf env cf dd snap raw).streams, _
    simp only [splitIndexOf]
    exact ⟨mkStreamRecord env (splitMeta env) s (splitOutBytes env snap s),
      List.mem_map.mpr ⟨s, hs, rfl⟩, rfl, rfl⟩

/-- C1 witness: concrete split of one stream (id 3) with snapLen defaulting
to 200 and the truncation tool missing, applied through the theorem. -/
theorem C1_truncation_fallback_witness :
    isErr (splitCaptureByTcpStream envC1 "cap.pcapng" "/dump" SnapRaw.missing) = false ∧
    (streamFileName 3, FileData.raw [1, 2, 3]) ∈
      splitFilesOf (splitCaptureByTcpStream envC1 "cap.pcapng" "/dump" SnapRaw.missing) ∧
    3 ∈ (splitRecordsOf (splitCaptureByTcpStream envC1 "cap.pcapng" "/dump"
        SnapRaw.missing)).map (fun rec => rec.id) := by
  obtain ⟨r, hok, hfile, rec, hrec, hid, hfname⟩ :=
    C1_truncation_fallback envC1 "cap.pcapng" "/dump" SnapRaw.missing [3] rfl
      (by decide) (by decide) 3 [1, 2, 3] (by decide) rfl "editcap not found" rfl
  rw [hok]
  refine ⟨rfl, hfile, ?_⟩
  exact List.mem_map.mpr ⟨rec, hrec, hid⟩

/-! ## Claim C2 — failure policy (confirmed) -/

theorem map_map_id {α β : Type} (l : List α) (f : α → β) (g : β → α)
    (h : ∀ a, g (f a) = a) : (l.map f).map g = l := by
  induction l with
  | nil => rfl
  | cons a l ih => simp [h, ih]

theorem map_map_comp {α β γ : Type} (l : List α) (f : α → β) (g : β → γ) (k : α → γ)
    (h : ∀ a, g (f a) = k a) : (l.map f).map g = l.map k := by
  induction l with
  | nil => rfl
  | cons a l ih => simp [h, ih]

/-- C2: the split surfaces an error exactly when enumeration fails or some
stream's primary extraction fails (on the error path no manifest value is
produced at all); and when the bulk metadata scan fails entirely, a split
that otherwise succeeds still writes every stream file and the manifest,
with every record carrying no endpoint metadata (the scan degraded to an
empty map). -/
theorem C2_failure_policy (env : SplitEnv) (cf dd : String) (snap : SnapRaw) :
    (isErr (splitCaptureByTcpStream env cf dd snap) = true ↔
      isErr env.enumerate = true ∨
        ∃ id ∈ enumIds env, isErr (env.extract id) = true) ∧
    (∀ msg, env.scanRows = .error msg →
      ∀ r, splitCaptureByTcpStream env cf dd snap = .ok r →
        r.index.streams.map (fun rec => rec.id) = enumIds env ∧
        r.files.map Prod.fst = (enumIds env).map streamFileName ++ ["index.json"] ∧
        r.progress.length = (enumIds env).length ∧
        ∀ rec ∈ r.index.streams,
          rec.src = none ∧ rec.dst = none ∧ rec.description = none) := by
  refine ⟨splitCapture_isErr env cf dd snap, ?_⟩
  intro msg hscan r hok
  obtain ⟨raw, henum, hex⟩ := splitCapture_ok_no_extract_err env cf dd snap r hok
  rw [splitCapture_ok_eq env cf dd snap raw henum hex] at hok
  have hr := (Except.ok.inj hok).symm
  subst hr
  have hids : enumIds env = sortedStreamIds raw := by simp [enumIds, henum]
  have hmeta : splitMeta env = [] := splitMeta_of_scan_error env msg hscan
  refine ⟨?_, ?_, ?_, ?_⟩
  · rw [hids]
    show ((sortedStreamIds raw).map _).map _ = sortedStreamIds raw
    exact map_map_id _ _ _ (fun a => rfl)
  · rw [hids]
    show (((sortedStreamIds raw).map _) ++ _).map Prod.fst = _
    rw [List.map_append]
    congr 1
    exact map_map_comp _ _ _ _ (fun a => rfl)
  · rw [hids]
    show (((sortedStreamIds raw).enumFrom 0).map _).length = _
    simp
  · intro rec hrec
    have hrec2 : rec ∈ (sortedStreamIds raw).map (fun id =>
        mkStreamRecord env (splitMeta env) id (splitOutBytes env snap id)) := hrec
    obtain ⟨id, _, rfl⟩ := List.mem_map.mp hrec2
    rw [hmeta]
    exact mkStreamRecord_empty_meta env id _

/-- C2 witness: the failure-policy theorem applied to an environment with
failing enumeration (split errors) and to one with a failing bulk scan but
successful enumeration and extraction (split succeeds, one record for
stream 3, no endpoint metadata). -/
theorem C2_failure_policy_witness :
    isErr (splitCaptureByTcpStream envErrEnum "c" "/d" SnapRaw.missing) = true ∧
    isErr (splitCaptureByTcpStream envC1 "cap.pcapng" "/dump" SnapRaw.missing) = false ∧
    (splitRecordsOf (splitCaptureByTcpStream envC1 "cap.pcapng" "/dump"
        SnapRaw.missing)).map (fun rec => rec.id) = [3] ∧
    ∀ rec ∈ splitRecordsOf (splitCaptureByTcpStream envC1 "cap.pcapng" "/dump"
        SnapRaw.missing), rec.src = none ∧ rec.dst = none ∧ rec.description = none := by
  have hok := splitCapture_ok_eq envC1 "cap.pcapng" "/dump" SnapRaw.missing [3] rfl
    (by decide)
  have h2 := (C2_failure_policy envC1 "cap.pcapng" "/dump" SnapRaw.missing).2
    "scan fail" rfl _ hok
  refine ⟨?_, ?_, ?_, ?_⟩
  · exact (C2_failure_policy envErrEnum "c" "/d" SnapRaw.missing).1.mpr (Or.inl rfl)
  · rw [hok]; rfl
  · rw [hok]
    exact h2.1.trans (by decide)
  · rw [hok]
    exact h2.2.2.2

/-! ## Claim C3 — progress ordering (confirmed) -/

/-- C3: for a split whose enumeration finds the distinct id set of `raw`
(`sortedStreamIds raw` enumerates that set strictly ascending), exactly one
progress event is emitted per stream, the k-th carrying
`current = k + 1`, `total = N`, and the k-th smallest StreamID with its file
name, and the stream files are written in that same ascending order. -/
theorem C3_progress_ordering (env : SplitEnv) (cf dd : String) (snap : SnapRaw)
    (raw : List Nat) (r : SplitResult)
    (henum : env.enumerate = .ok raw)
    (hok : splitCaptureByTcpStream env cf dd snap = .ok r) :
    r.progress.length = (sortedStreamIds raw).length ∧
    (∀ (k : Nat) (id : Nat), (sortedStreamIds raw)[k]? = some id →
      r.progress[k]? =
        some (ProgressEvent.mk (k + 1) (sortedStreamIds raw).length id
          (streamFileName id))) ∧
    (sortedStreamIds raw).Sorted (· < ·) ∧
    (∀ x, x ∈ sortedStreamIds raw ↔ x ∈ raw) ∧
    r.files.map Prod.fst = (sortedStreamIds raw).map streamFileName ++ ["index.json"] := by
  obtain ⟨raw2, henum2, hex⟩ := splitCapture_ok_no_extract_err env cf dd snap r hok
  rw [henum] at henum2
  have hraw : raw2 = raw := (Except.ok.inj henum2).symm
  subst hraw
  rw [splitCapture_ok_eq env cf dd snap raw2 henum hex] at hok
  have hr := (Except.ok.inj hok).symm
  subst hr
  refine ⟨?_, ?_, sortedStreamIds_sorted_lt raw2, fun x => mem_sortedStreamIds, ?_⟩
  · show (((sortedStreamIds raw2).enumFrom 0).map _).length = _
    simp
  · intro k id hk
    show ((((sortedStreamIds raw2).enumFrom 0).map _)[k]?) = _
    rw [List.getElem?_map, List.getElem?_enumFrom, hk]
    simp
  · show (((sortedStreamIds raw2).map _) ++ _).map Prod.fst = _
    rw [List.map_append]
    congr 1
    exact map_map_comp _ _ _ _ (fun a => rfl)

/-- C3 witness: an enumeration with rows `[7, 3, 7]` yields the distinct
ascending set `[3, 7]`, two progress events `(1/2, id 3)` and `(2/2, id 7)`,
and files written in that order. -/
theorem C3_progress_ordering_witness :
    (splitProgressOf (splitCaptureByTcpStream envC3 "c" "/d" SnapRaw.missing)).length = 2 ∧
    (splitProgressOf (splitCaptureByTcpStream envC3 "c" "/d" SnapRaw.missing))[0]? =
      some ⟨1, 2, 3, streamFileName 3⟩ ∧
    (splitProgressOf (splitCaptureByTcpStream envC3 "c" "/d" SnapRaw.missing))[1]? =
      some ⟨2, 2, 7, streamFileName 7⟩ ∧
    (splitFilesOf (splitCaptureByTcpStream envC3 "c" "/d" SnapRaw.missing)).map Prod.fst =
      [streamFileName 3, streamFileName 7, "index.json"] := by
  have hok := splitCapture_ok_eq envC3 "c" "/d" SnapRaw.missing [7, 3, 7] rfl (by decide)
  have h := C3_progress_ordering envC3 "c" "/d" SnapRaw.missing [7, 3, 7] _ rfl hok
  rw [hok]
  have hids : sortedStreamIds [7, 3, 7] = [3, 7] := by decide
  refine ⟨?_, ?_, ?_, ?_⟩
  · exact h.1.trans (by rw [hids]; rfl)
  · exact h.2.1 0 3 (by rw [hids]; rfl)
  · exact h.2.1 1 7 (by rw [hids]; rfl)
  · refine h.2.2.2.2.trans ?_
    rw [hids]
    rfl

/-! ## Lemmas: the reconstruction path -/

theorem filterMap_isSome_map_snd (l : List String)
    (h : ∀ n ∈ l, (parseStreamName n).isSome = true) :
    (l.filterMap (fun name => (parseStreamName name).map (fun id => (id, name)))).map
      Prod.snd = l := by
  induction l with
  | nil => rfl
  | cons a rest ih =>
    have ha : (parseStreamName a).isSome = true := h a (List.mem_cons_self a rest)
    cases hp : parseStreamName a with
    | none => rw [hp] at ha; simp at ha
    | some i =>
      rw [List.filterMap_cons]
      simp only [hp, Option.map_some']
      rw [List.map_cons]
      exact congrArg (a :: ·) (ih (fun n hn => h n (List.mem_cons_of_mem a hn)))

theorem matchedStreams_map_snd (listing : List String) :
    (matchedStreams listing).map Prod.snd =
      listing.filter (fun n => (parseStreamName n).isSome) := by
  apply filterMap_isSome_map_snd
  intro n hn
  exact (List.mem_filter.mp hn).2

theorem mem_matchedStreams {listing : List String} {id : Nat} {name : String} :
    (id, name) ∈ matchedStreams listing ↔
      name ∈ listing ∧ parseStreamName name = some id := by
  simp only [matchedStreams, List.mem_filterMap, List.mem_filter]
  constructor
  · rintro ⟨a, ⟨ha, _⟩, hf⟩
    cases hp : parseStreamName a with
    | none => rw [hp] at hf; simp at hf
    | some i =>
      rw [hp] at hf
      simp only [Option.map_some', Option.some.injEq, Prod.mk.injEq] at hf
      obtain ⟨rfl, rfl⟩ := hf
      exact ⟨ha, hp⟩
  · rintro ⟨hmem, hp⟩
    exact ⟨name, ⟨hmem, by simp [hp]⟩, by simp [hp]⟩

/-- The sorted `{id, file}` list reconstruction builds. -/
def rebuildStreams (listing : List String) : List (Nat × String) :=
  (matchedStreams listing).insertionSort idLe

/-- The metadata map reconstruction builds from the per-file scans. -/
def rebuildMeta (env : RebuildEnv) (listing : List String) : List (Nat × StreamMeta) :=
  addDescriptions (resolveHostnamesForStreamMeta env.rdns
    ((rebuildStreams listing).foldl (fun m s =>
      match env.scanOne s.2 with
      | none => m
      | some sm => setAssoc m s.1 sm) []))

/-- The manifest reconstruction persists. -/
def rebuildIndexOf (env : RebuildEnv) (sd : String) (listing : List String) :
    StreamIndex :=
  { version := 2
    captureFile := "(imported)"
    splitDir := sd
    createdAt := env.now
    streams := (rebuildStreams listing).map (fun s =>
      let st := env.stats s.2
      let m := (rebuildMeta env listing).lookup s.1
      { id := s.1
        file := s.2
        src := m.bind (fun x => x.src)
        dst := m.bind (fun x => x.dst)
        description := m.bind (fun x => x.description)
        sizeBytes := st.1
        packetCount := st.2 }) }

theorem buildSplit_eq (env : RebuildEnv) (sd : String) (listing : List String)
    (hne : (listing.filter (fun n => (parseStreamName n).isSome)).isEmpty = false) :
    buildSplitIndexFromStreamsDir env sd listing =
      .ok (rebuildIndexOf env sd listing,
        if "index.json" ∈ listing then listing else listing ++ ["index.json"]) := by
  simp only [buildSplitIndexFromStreamsDir, hne]
  rfl

theorem rebuildIndexOf_streams_pairs (env : RebuildEnv) (sd : String)
    (listing : List String) :
    (rebuildIndexOf env sd listing).streams.map (fun rec => (rec.id, rec.file)) =
      rebuildStreams listing := by
  show ((rebuildStreams listing).map _).map _ = rebuildStreams listing
  exact map_map_id _ _ _ (fun a => rfl)

theorem buildSplit_ok_shape (env : RebuildEnv) (sd : String) (listing : List String)
    (ix : StreamIndex) (listing2 : List String)
    (h : buildSplitIndexFromStreamsDir env sd listing = .ok (ix, listing2)) :
    ix.captureFile = "(imported)" ∧
    ix.streams.map (fun rec => (rec.id, rec.file)) = rebuildStreams listing ∧
    listing2 = (if "index.json" ∈ listing then listing else listing ++ ["index.json"]) := by
  cases hcond : (listing.filter (fun n => (parseStreamName n).isSome)).isEmpty with
  | true =>
    exfalso
    have herr : buildSplitIndexFromStreamsDir env sd listing =
        .error ("No tcp-stream-*.pcapng files found in " ++ sd) := by
      simp only [buildSplitIndexFromStreamsDir, hcond]
      rfl
    rw [herr] at h
    exact absurd h (by simp)
  | false =>
    have heq := buildSplit_eq env sd listing hcond
    rw [heq] at h
    have hp := Except.ok.inj h
    have hix : rebuildIndexOf env sd listing = ix := congrArg Prod.fst hp
    have hls : (if "index.json" ∈ listing then listing else listing ++ ["index.json"]) =
        listing2 := congrArg Prod.snd hp
    subst hix
    subst hls
    exact ⟨rfl, rebuildIndexOf_streams_pairs env sd listing, rfl⟩

/-! ## Claim C7 — manifest integrity (confirmed) -/

theorem rebuildStreams_snd_perm (listing : List String) :
    ((rebuildStreams listing).map Prod.snd).Perm
      (listing.filter (fun n => (parseStreamName n).isSome)) := by
  have hperm : (rebuildStreams listing).Perm (matchedStreams listing) :=
    List.perm_insertionSort idLe (matchedStreams listing)
  have := hperm.map Prod.snd
  rwa [matchedStreams_map_snd] at this

/-- C7: after a split completes, every StreamRecord's file is among the
files written into the split directory and the record file names are
pairwise distinct; after a reconstruction completes on a duplicate-free
directory listing, every record's file is a listed stream file (still
present after the manifest write) and the record file names are pairwise
distinct. -/
theorem C7_manifest_integrity :
    (∀ (env : SplitEnv) (cf dd : String) (snap : SnapRaw) (r : SplitResult),
      splitCaptureByTcpStream env cf dd snap = .ok r →
      (∀ rec ∈ r.index.streams, rec.file ∈ r.files.map Prod.fst) ∧
      (r.index.streams.map (fun rec => rec.file)).Nodup) ∧
    (∀ (env : RebuildEnv) (sd : String) (listing : List String) (ix : StreamIndex)
      (listing2 : List String), listing.Nodup →
      buildSplitIndexFromStreamsDir env sd listing = .ok (ix, listing2) →
      (∀ rec ∈ ix.streams, rec.file ∈ listing ∧ rec.file ∈ listing2) ∧
      (ix.streams.map (fun rec => rec.file)).Nodup) := by
  constructor
  · intro env cf dd snap r hok
    obtain ⟨raw, henum, hex⟩ := splitCapture_ok_no_extract_err env cf dd snap r hok
    rw [splitCapture_ok_eq env cf dd snap raw henum hex] at hok
    have hr := (Except.ok.inj hok).symm
    subst hr
    constructor
    · intro rec hrec
      have hrec2 : rec ∈ (sortedStreamIds raw).map (fun id =>
          mkStreamRecord env (splitMeta env) id (splitOutBytes env snap id)) := hrec
      obtain ⟨id, hid, rfl⟩ := List.mem_map.mp hrec2
      show streamFileName id ∈ (_ ++ _ : List (String × FileData)).map Prod.fst
      rw [List.map_append]
      apply List.mem_append_left
      have : (((sortedStreamIds raw).map (fun id =>
          (streamFileName id, FileData.raw (splitOutBytes env snap id)))).map Prod.fst) =
          (sortedStreamIds raw).map streamFileName :=
        map_map_comp _ _ _ _ (fun a => rfl)
      rw [this]
      exact List.mem_map.mpr ⟨id, hid, rfl⟩
    · have heq : ((sortedStreamIds raw).map (fun id =>
          mkStreamRecord env (splitMeta env) id (splitOutBytes env snap id))).map
            (fun rec => rec.file) = (sortedStreamIds raw).map streamFileName :=
        map_map_comp _ _ _ _ (fun a => rfl)
      show ((sortedStreamIds raw).map _).map _ |>.Nodup
      rw [heq]
      exact (sortedStreamIds_nodup raw).map streamFileName_injective
  · intro env sd listing ix listing2 hnodup hok
    obtain ⟨hcf, hpairs, hl2⟩ := buildSplit_ok_shape env sd listing ix listing2 hok
    have hfiles : ix.streams.map (fun rec => rec.file) =
        (rebuildStreams listing).map Prod.snd := by
      have h2 := congrArg (List.map Prod.snd) hpairs
      rw [List.map_map] at h2
      exact h2
    constructor
    · intro rec hrec
      have hpair : (rec.id, rec.file) ∈ rebuildStreams listing := by
        rw [← hpairs]
        exact List.mem_map.mpr ⟨rec, hrec, rfl⟩
      have hmatched : (rec.id, rec.file) ∈ matchedStreams listing :=
        (List.perm_insertionSort idLe (matchedStreams listing)).mem_iff.mp hpair
      have hmem : rec.file ∈ listing := (mem_matchedStreams.mp hmatched).1
      refine ⟨hmem, ?_⟩
      rw [hl2]
      by_cases hij : "index.json" ∈ listing
      · rw [if_pos hij]; exact hmem
      · rw [if_neg hij]; exact List.mem_append_left _ hmem
    · rw [hfiles]
      exact ((rebuildStreams_snd_perm listing).nodup_iff).mpr (hnodup.filter _)

def rebuildEnvTrivial : RebuildEnv :=
  { scanOne := fun _ => none
    rdns := rdnsOff
    stats := fun _ => (none, none)
    now := "T" }

def rebuildIdsOf (x : Except String (StreamIndex × List String)) : List Nat :=
  match x with
  | .ok (ix, _) => ix.streams.map (fun rec => rec.id)
  | .error _ => []

/-- C7 witness: the split part applied to the two-stream environment and the
rebuild part applied to a directory holding stream files for ids 0 and 7. -/
theorem C7_manifest_integrity_witness :
    ((splitRecordsOf (splitCaptureByTcpStream envC3 "c" "/d" SnapRaw.missing)).map
      (fun rec => rec.file)).Nodup ∧
    (∀ rec ∈ splitRecordsOf (splitCaptureByTcpStream envC3 "c" "/d" SnapRaw.missing),
      rec.file ∈ (splitFilesOf (splitCaptureByTcpStream envC3 "c" "/d"
        SnapRaw.missing)).map Prod.fst) ∧
    (rebuildIdsOf (buildSplitIndexFromStreamsDir rebuildEnvTrivial "/d"
      ["tcp-stream-00000.pcapng", "tcp-stream-00007.pcapng"])).length = 2 := by
  have hok := splitCapture_ok_eq envC3 "c" "/d" SnapRaw.missing [7, 3, 7] rfl (by decide)
  have h1 := (C7_manifest_integrity.1 envC3 "c" "/d" SnapRaw.missing _ hok)
  refine ⟨?_, ?_, ?_⟩
  · rw [hok]
    exact h1.2
  · rw [hok]
    exact h1.1
  · decide

/-! ## Claim C4 — reconstruction from a streams directory (corrected) -/

/-- C4 counterexample: a directory may hold the same stream id under both
permitted extensions; its id set is `S = {7}` but reconstruction emits one
StreamRecord per matching file — here two records with id 7 — so the
manifest does not have exactly one record per id in `S`. -/
theorem C4_counterexample :
    parseStreamName "tcp-stream-00007.pcap" = some 7 ∧
    parseStreamName "tcp-stream-00007.pcapng" = some 7 ∧
    rebuildIdsOf (buildSplitIndexFromStreamsDir rebuildEnvTrivial "d"
      ["tcp-stream-00007.pcap", "tcp-stream-00007.pcapng"]) = [7, 7] := by
  decide

theorem mem_map_fst_pairs {l : List (Nat × String)} {id : Nat} :
    id ∈ l.map Prod.fst ↔ ∃ name, (id, name) ∈ l := by
  constructor
  · intro h
    obtain ⟨p, hp, rfl⟩ := List.mem_map.mp h
    exact ⟨p.2, by simpa using hp⟩
  · rintro ⟨name, hmem⟩
    exact List.mem_map.mpr ⟨(id, name), hmem, rfl⟩

/-- C4 (amended): for a directory whose files matching the zero-padded
pattern have pairwise-distinct stream ids (in particular when each id
appears under a single extension), reconstruction succeeds and persists a
manifest whose records enumerate exactly the encoded id set `S`, in strictly
ascending id order (hence exactly one record per id in `S`), with
`captureFile` marked `"(imported)"`; in general there is exactly one record
per matching file. -/
theorem C4_rebuild_from_dir_amended (env : RebuildEnv) (sd : String)
    (listing : List String)
    (hne : (listing.filter (fun n => (parseStreamName n).isSome)).isEmpty = false)
    (hids : ((matchedStreams listing).map Prod.fst).Nodup) :
    ∃ ix listing2, buildSplitIndexFromStreamsDir env sd listing = .ok (ix, listing2) ∧
      ix.captureFile = "(imported)" ∧
      (ix.streams.map (fun rec => rec.id)).Sorted (· < ·) ∧
      (∀ id : Nat, id ∈ ix.streams.map (fun rec => rec.id) ↔
        ∃ name ∈ listing, parseStreamName name = some id) := by
  refine ⟨rebuildIndexOf env sd listing, _, buildSplit_eq env sd listing hne, rfl, ?_, ?_⟩
  all_goals
    have hid_eq : (rebuildIndexOf env sd listing).streams.map (fun rec => rec.id) =
        (rebuildStreams listing).map Prod.fst := by
      have h2 := congrArg (List.map Prod.fst) (rebuildIndexOf_streams_pairs env sd listing)
      rw [List.map_map] at h2
      exact h2
  · rw [hid_eq]
    have hsorted : (rebuildStreams listing).Sorted idLe :=
      List.sorted_insertionSort idLe (matchedStreams listing)
    have hle : ((rebuildStreams listing).map Prod.fst).Sorted (· ≤ ·) :=
      List.Pairwise.map Prod.fst (fun a b hab => hab) hsorted
    have hnd : ((rebuildStreams listing).map Prod.fst).Nodup := by
      refine (((List.perm_insertionSort idLe (matchedStreams listing)).map
        Prod.fst).nodup_iff).mpr hids
    exact hle.lt_of_le hnd
  · intro id
    rw [hid_eq]
    rw [mem_map_fst_pairs]
    constructor
    · rintro ⟨name, hmem⟩
      have := (List.perm_insertionSort idLe (matchedStreams listing)).mem_iff.mp hmem
      obtain ⟨h1, h2⟩ := mem_matchedStreams.mp this
      exact ⟨name, h1, h2⟩
    · rintro ⟨name, h1, h2⟩
      exact ⟨name, (List.perm_insertionSort idLe (matchedStreams listing)).mem_iff.mpr
        (mem_matchedStreams.mpr ⟨h1, h2⟩)⟩

theorem sorted_zero_seven (l : List Nat) (hs : l.Sorted (· < ·))
    (h0 : 0 ∈ l) (h7 : 7 ∈ l) (honly : ∀ id ∈ l, id = 0 ∨ id = 7) : l = [0, 7] := by
  match l, hs, h0, h7, honly with
  | [], _, h0, _, _ => exact absurd h0 (by simp)
  | [a], _, h0, h7, _ =>
    simp only [List.mem_singleton] at h0 h7
    omega
  | a :: b :: rest, hs, h0, h7, honly =>
    have hp1 := List.pairwise_cons.mp hs
    have hp2 := List.pairwise_cons.mp hp1.2
    have hab : a < b := hp1.1 b (List.mem_cons_self b rest)
    have ha : a = 0 ∨ a = 7 := honly a (List.mem_cons_self a (b :: rest))
    have hb : b = 0 ∨ b = 7 :=
      honly b (List.mem_cons_of_mem a (List.mem_cons_self b rest))
    have ha0 : a = 0 := by omega
    have hb7 : b = 7 := by omega
    subst ha0
    subst hb7
    have hrest : rest = [] := by
      cases hr : rest with
      | nil => rfl
      | cons c rest2 =>
        exfalso
        subst hr
        have hc : c = 0 ∨ c = 7 := honly c
          (List.mem_cons_of_mem _ (List.mem_cons_of_mem _ (List.mem_cons_self c rest2)))
        have h7c : (7 : Nat) < c := hp2.1 c (List.mem_cons_self c rest2)
        omega
    rw [hrest]

/-- C4 witness: the amended theorem applied to the spec's example directory
holding only streams 0 and 7. -/
theorem C4_rebuild_from_dir_witness :
    rebuildIdsOf (buildSplitIndexFromStreamsDir rebuildEnvTrivial "/d"
      ["tcp-stream-00007.pcapng", "tcp-stream-00000.pcapng"]) = [0, 7] := by
  obtain ⟨ix, listing2, hok, hcf, hsorted, hmem⟩ :=
    C4_rebuild_from_dir_amended rebuildEnvTrivial "/d"
      ["tcp-stream-00007.pcapng", "tcp-stream-00000.pcapng"] (by decide) (by decide)
  rw [hok]
  show ix.streams.map (fun rec => rec.id) = [0, 7]
  have h0 : (0 : Nat) ∈ ix.streams.map (fun rec => rec.id) :=
    (hmem 0).mpr ⟨"tcp-stream-00000.pcapng", by decide, by decide⟩
  have h7 : (7 : Nat) ∈ ix.streams.map (fun rec => rec.id) :=
    (hmem 7).mpr ⟨"tcp-stream-00007.pcapng", by decide, by decide⟩
  have honly : ∀ id ∈ ix.streams.map (fun rec => rec.id), id = 0 ∨ id = 7 := by
    intro id hid
    obtain ⟨name, hn, hp⟩ := (hmem id).mp hid
    rcases List.mem_cons.mp hn with rfl | hn2
    · right
      have : parseStreamName "tcp-stream-00007.pcapng" = some 7 := by decide
      rw [this] at hp
      exact (Option.some.inj hp).symm
    · rcases List.mem_cons.mp hn2 with rfl | hn3
      · left
        have : parseStreamName "tcp-stream-00000.pcapng" = some 0 := by decide
        rw [this] at hp
        exact (Option.some.inj hp).symm
      · exact absurd hn3 (by simp)
  exact sorted_zero_seven _ hsorted h0 h7 honly

/-! ## Claim C5 — idempotent reconstruction (corrected) -/

def envC5 : SplitEnv :=
  { enumerate := .ok [100000]
    scanRows := .error "x"
    extract := fun _ => .ok [0]
    editcap := .error "no editcap"
    packetCount := fun _ => none
    rdns := rdnsOff
    now := "T" }

def rebuildPairsOf (x : Except String (StreamIndex × List String)) :
    List (Nat × String) :=
  match x with
  | .ok (ix, _) => ix.streams.map (fun rec => (rec.id, rec.file))
  | .error _ => []

/-- C5 counterexample: the splitter happily writes stream 100000 to
`tcp-stream-100000.pcapng` (six digits — `padStart(5)` does not truncate),
but the reconstruction pattern requires exactly five digits, so rebuilding
the split directory after deleting only the manifest fails outright instead
of yielding the same StreamID/file set. -/
theorem C5_counterexample :
    (splitRecordsOf (splitCaptureByTcpStream envC5 "c" "/d" SnapRaw.missing)).map
      (fun rec => (rec.id, rec.file)) = [(100000, streamFileName 100000)] ∧
    parseStreamName (streamFileName 100000) = none ∧
    isErr (buildSplitIndexFromStreamsDir rebuildEnvTrivial "/d/split"
      [streamFileName 100000]) = true := by
  decide

theorem buildSplit_ok_nonempty (env : RebuildEnv) (sd : String) (listing : List String)
    (ix : StreamIndex) (l2 : List String)
    (h : buildSplitIndexFromStreamsDir env sd listing = .ok (ix, l2)) :
    (listing.filter (fun n => (parseStreamName n).isSome)).isEmpty = false := by
  cases hcond : (listing.filter (fun n => (parseStreamName n).isSome)).isEmpty with
  | false => rfl
  | true =>
    exfalso
    have herr : buildSplitIndexFromStreamsDir env sd listing =
        .error ("No tcp-stream-*.pcapng files found in " ++ sd) := by
      simp only [buildSplitIndexFromStreamsDir, hcond]
      rfl
    rw [herr] at h
    exact absurd h (by simp)

theorem filter_parse_stable (listing : List String) :
    ((if "index.json" ∈ listing then listing else listing ++ ["index.json"]).filter
      (fun n => (parseStreamName n).isSome)) =
      listing.filter (fun n => (parseStreamName n).isSome) := by
  by_cases h : "index.json" ∈ listing
  · rw [if_pos h]
  · rw [if_neg h, List.filter_append]
    have hij : List.filter (fun n => (parseStreamName n).isSome) ["index.json"] = [] := by
      decide
    rw [hij, List.append_nil]

theorem matchedStreams_stable (listing : List String) :
    matchedStreams (if "index.json" ∈ listing then listing else
      listing ++ ["index.json"]) = matchedStreams listing := by
  unfold matchedStreams
  rw [filter_parse_stable]

theorem matchedStreams_cons_some {name : String} {id : Nat} (l : List String)
    (h : parseStreamName name = some id) :
    matchedStreams (name :: l) = (id, name) :: matchedStreams l := by
  unfold matchedStreams
  rw [List.filter_cons, if_pos (by simp [h]), List.filterMap_cons]
  simp [h]

theorem matchedStreams_of_names (ids : List Nat) (h : ∀ id ∈ ids, id < 100000) :
    matchedStreams (ids.map streamFileName) =
      ids.map (fun id => (id, streamFileName id)) := by
  induction ids with
  | nil => rfl
  | cons a rest ih =>
    rw [List.map_cons, matchedStreams_cons_some _
      (parseStreamName_streamFileName (h a (List.mem_cons_self a rest))),
      ih (fun x hx => h x (List.mem_cons_of_mem a hx)), List.map_cons]

/-- C5 (amended): rebuilding twice is idempotent on the stream set — a
second reconstruction run on the directory left by a first run succeeds and
produces records with exactly the same (StreamID, file) list; and for a
completed split with at least one stream all of whose StreamIDs are below
100000 (the five-digit capacity of the file-name pattern), deleting only the
manifest and reconstructing yields records whose (StreamID, file) set is the
same as the original manifest's. -/
theorem C5_reconstruction_amended :
    (∀ (env env2 : RebuildEnv) (sd sd2 : String) (listing : List String)
      (ix : StreamIndex) (l2 : List String),
      buildSplitIndexFromStreamsDir env sd listing = .ok (ix, l2) →
      ∃ ix2 l3, buildSplitIndexFromStreamsDir env2 sd2 l2 = .ok (ix2, l3) ∧
        ix2.streams.map (fun rec => (rec.id, rec.file)) =
          ix.streams.map (fun rec => (rec.id, rec.file))) ∧
    (∀ (env : SplitEnv) (cf dd : String) (snap : SnapRaw) (r : SplitResult)
      (env2 : RebuildEnv) (sd2 : String),
      splitCaptureByTcpStream env cf dd snap = .ok r →
      r.index.streams ≠ [] →
      (∀ rec ∈ r.index.streams, rec.id < 100000) →
      ∃ ix2 l3, buildSplitIndexFromStreamsDir env2 sd2
          (r.index.streams.map (fun rec => rec.file)) = .ok (ix2, l3) ∧
        (ix2.streams.map (fun rec => (rec.id, rec.file))).Perm
          (r.index.streams.map (fun rec => (rec.id, rec.file)))) := by
  constructor
  · intro env env2 sd sd2 listing ix l2 h1
    have hne := buildSplit_ok_nonempty env sd listing ix l2 h1
    obtain ⟨hcf, hpairs, hl2⟩ := buildSplit_ok_shape env sd listing ix l2 h1
    have hne2 : (l2.filter (fun n => (parseStreamName n).isSome)).isEmpty = false := by
      rw [hl2, filter_parse_stable]
      exact hne
    refine ⟨rebuildIndexOf env2 sd2 l2, _, buildSplit_eq env2 sd2 l2 hne2, ?_⟩
    rw [rebuildIndexOf_streams_pairs, hpairs]
    show rebuildStreams l2 = rebuildStreams listing
    unfold rebuildStreams
    rw [hl2, matchedStreams_stable]
  · intro env cf dd snap r env2 sd2 hok hne hlt
    obtain ⟨raw, henum, hex⟩ := splitCapture_ok_no_extract_err env cf dd snap r hok
    rw [splitCapture_ok_eq env cf dd snap raw henum hex] at hok
    have hr := (Except.ok.inj hok).symm
    subst hr
    have hfiles : ((sortedStreamIds raw).map (fun id =>
        mkStreamRecord env (splitMeta env) id (splitOutBytes env snap id))).map
          (fun rec => rec.file) = (sortedStreamIds raw).map streamFileName :=
      map_map_comp _ _ _ _ (fun a => rfl)
    have hpairs0 : ((sortedStreamIds raw).map (fun id =>
        mkStreamRecord env (splitMeta env) id (splitOutBytes env snap id))).map
          (fun rec => (rec.id, rec.file)) =
        (sortedStreamIds raw).map (fun id => (id, streamFileName id)) :=
      map_map_comp _ _ _ _ (fun a => rfl)
    have hlt2 : ∀ id ∈ sortedStreamIds raw, id < 100000 := by
      intro id hid
      exact hlt (mkStreamRecord env (splitMeta env) id (splitOutBytes env snap id))
        (List.mem_map.mpr ⟨id, hid, rfl⟩)
    have hmatched := matchedStreams_of_names (sortedStreamIds raw) hlt2
    have hfilter : ((sortedStreamIds raw).map streamFileName).filter
        (fun n => (parseStreamName n).isSome) =
        (sortedStreamIds raw).map streamFileName := by
      have h1 := matchedStreams_map_snd ((sortedStreamIds raw).map streamFileName)
      rw [hmatched, List.map_map] at h1
      exact h1.symm
    have hids_ne : sortedStreamIds raw ≠ [] := by
      intro hnil
      apply hne
      show ((sortedStreamIds raw).map _) = []
      rw [hnil]
      rfl
    have hne2 : (((sortedStreamIds raw).map streamFileName).filter
        (fun n => (parseStreamName n).isSome)).isEmpty = false := by
      rw [hfilter]
      cases hm : sortedStreamIds raw with
      | nil => exact absurd hm hids_ne
      | cons a rest => rfl
    simp only [splitIndexOf]
    rw [hfiles, hpairs0]
    refine ⟨rebuildIndexOf env2 sd2 ((sortedStreamIds raw).map streamFileName), _,
      buildSplit_eq env2 sd2 _ hne2, ?_⟩
    rw [rebuildIndexOf_streams_pairs]
    show (rebuildStreams ((sortedStreamIds raw).map streamFileName)).Perm _
    unfold rebuildStreams
    rw [hmatched]
    exact List.perm_insertionSort idLe _

/-- C5 witness: the amended theorem's split-then-rebuild part applied to the
concrete two-stream split: rebuilding the stream files (without the
manifest) yields the same (StreamID, file) set. -/
theorem C5_reconstruction_witness :
    (rebuildPairsOf (buildSplitIndexFromStreamsDir rebuildEnvTrivial "/d2"
      [streamFileName 3, streamFileName 7])).Perm
      [(3, streamFileName 3), (7, streamFileName 7)] := by
  have hok := splitCapture_ok_eq envC3 "c" "/d" SnapRaw.missing [7, 3, 7] rfl (by decide)
  obtain ⟨ix2, l3, heq, hperm⟩ := C5_reconstruction_amended.2 envC3 "c" "/d"
    SnapRaw.missing _ rebuildEnvTrivial "/d2" hok (by decide) (by decide)
  have heq2 : buildSplitIndexFromStreamsDir rebuildEnvTrivial "/d2"
      [streamFileName 3, streamFileName 7] = .ok (ix2, l3) := heq
  rw [heq2]
  exact hperm

/-! ## Claim C6 — conflicting read is rejected (confirmed) -/

/-- C6: a read-manifest request for an existing directory that contains no
manifest, while a split is in progress whose `splitDir` resolves to that
same directory, fails synchronously with the explicit "still in progress"
error (no partial or stale data is returned). -/
theorem C6_in_progress_guard (v : FsView) (st : SplitStatus) (input d : String)
    (htrim : jsTrim input = input)
    (hne : ¬ input = "")
    (hexists : v.pathExists input = true)
    (hnotfile : v.isFile input = false)
    (hdir : v.isDir input = true)
    (hnoindex : v.pathExists (v.join input "index.json") = false)
    (hsplitting : st.splitting = true)
    (hsd : st.splitDir = some d)
    (hres : v.resolve d = v.resolve input) :
    readSplitIndexEntry v st input =
      .error ("Split is still in progress for " ++ input ++
        ". Please wait for splitting to finish and try again.") := by
  unfold readSplitIndexEntry
  rw [htrim]
  rw [if_neg hne]
  rw [if_neg (by rw [hexists]; simp)]
  rw [if_neg (by rw [hnotfile]; simp)]
  rw [if_pos hdir]
  rw [if_pos]
  constructor
  · rw [hnoindex]
    simp
  · rw [hsplitting, hsd]
    simp [hres]

def fsViewW : FsView :=
  { pathExists := fun s => s = "/dump/split"
    isFile := fun _ => false
    isDir := fun s => s = "/dump/split"
    dirname := fun _ => "/dump"
    join := fun a b => a ++ "/" ++ b
    resolve := fun s => s
    extname := fun _ => "" }

/-- C6 witness: the guard theorem applied to a concrete filesystem view in
which `/dump/split` exists, holds no `index.json`, and is the directory of
the in-flight split. -/
theorem C6_in_progress_guard_witness :
    readSplitIndexEntry fsViewW { splitting := true, splitDir := some "/dump/split" }
      "/dump/split" =
      .error ("Split is still in progress for " ++ "/dump/split" ++
        ". Please wait for splitting to finish and try again.") := by
  have h := C6_in_progress_guard fsViewW
    { splitting := true, splitDir := some "/dump/split" } "/dump/split" "/dump/split"
    (by decide) (by decide) (by decide) rfl (by decide) (by decide) rfl rfl rfl
  rw [h]

/-! ## Claim C10 — `mapWithConcurrency` refines the sequential map (confirmed) -/

/-- Inductive invariant of the worker-pool machine: result and worker arrays
keep their lengths; every index below the shared counter (and in range) is
either held by some worker or already written with the right value; held
indices are in range; a returned worker implies the counter passed the end;
the invocation log is exactly the ascending range of indices handed out; a
returned worker holds nothing. -/
structure MapCCInv {α R : Type} (items : List α) (fn : α → R) (W : Nat)
    (s : MapCCState R) : Prop where
  len_results : s.results.length = items.length
  len_holding : s.holding.length = W
  len_wdone : s.wdone.length = W
  covered : ∀ i : Nat, i < items.length → i < s.next →
    (∃ w : Nat, s.holding[w]? = some (some i)) ∨
      s.results[i]? = some (items[i]?.map fn)
  held_lt : ∀ w idx : Nat, s.holding[w]? = some (some idx) → idx < items.length
  done_next : (∃ w : Nat, s.wdone[w]? = some true) → items.length ≤ s.next
  log_eq : s.log = List.range (min s.next items.length)
  done_holding : ∀ w : Nat, s.wdone[w]? = some true → s.holding[w]? = some none

theorem mapCCInv_init {α R : Type} (items : List α) (fn : α → R) (W : Nat) :
    MapCCInv items fn W (initMapCCState R W items.length) := by
  constructor
  · simp [initMapCCState]
  · simp [initMapCCState]
  · simp [initMapCCState]
  · intro i _ hlt
    exact absurd hlt (by simp [initMapCCState])
  · intro w idx h
    simp only [initMapCCState] at h
    rw [List.getElem?_replicate] at h
    by_cases hw : w < W
    · rw [if_pos hw] at h
      exact absurd (Option.some.inj h) (by simp)
    · rw [if_neg hw] at h
      exact absurd h (by simp)
  · rintro ⟨w, hw⟩
    simp only [initMapCCState] at hw
    rw [List.getElem?_replicate] at hw
    by_cases h : w < W
    · rw [if_pos h] at hw
      exact absurd (Option.some.inj hw) (by simp)
    · rw [if_neg h] at hw
      exact absurd hw (by simp)
  · simp [initMapCCState]
  · intro w hw
    simp only [initMapCCState] at hw
    rw [List.getElem?_replicate] at hw
    by_cases h : w < W
    · rw [if_pos h] at hw
      exact absurd (Option.some.inj hw) (by simp)
    · rw [if_neg h] at hw
      exact absurd hw (by simp)

theorem mapCCInv_step {α R : Type} (items : List α) (fn : α → R) (W : Nat)
    (s : MapCCState R) (hinv : MapCCInv items fn W s) (w : Nat) :
    MapCCInv items fn W (wStep items fn s w) := by
  unfold wStep
  cases hh : s.holding[w]? with
  | none => exact hinv
  | some h =>
    have hwlt : w < s.holding.length := by
      by_contra hge
      rw [List.getElem?_eq_none (by omega)] at hh
      exact absurd hh (by simp)
    cases h with
    | some idx =>
      have hidx : idx < items.length := hinv.held_lt w idx hh
      have hidxr : idx < s.results.length := by rw [hinv.len_results]; exact hidx
      show MapCCInv items fn W
        { s with results := s.results.set idx (items[idx]?.map fn),
                 holding := s.holding.set w none }
      constructor
      · simp [hinv.len_results]
      · simp [hinv.len_holding]
      · exact hinv.len_wdone
      · intro i hi hlt
        rcases hinv.covered i hi hlt with ⟨w2, hw2⟩ | hwr
        · by_cases hww : w2 = w
          · subst hww
            rw [hh] at hw2
            have hieq : idx = i := Option.some.inj (Option.some.inj hw2)
            subst hieq
            refine Or.inr ?_
            show (s.results.set idx _)[idx]? = _
            rw [List.getElem?_set_self hidxr]
          · refine Or.inl ⟨w2, ?_⟩
            show (s.holding.set w none)[w2]? = _
            rw [List.getElem?_set_ne (fun hc => hww hc.symm)]
            exact hw2
        · by_cases hii : i = idx
          · subst hii
            refine Or.inr ?_
            show (s.results.set i _)[i]? = _
            rw [List.getElem?_set_self hidxr]
          · refine Or.inr ?_
            show (s.results.set idx _)[i]? = _
            rw [List.getElem?_set_ne (fun hc => hii hc.symm)]
            exact hwr
      · intro w2 idx2 h2
        by_cases hww : w2 = w
        · subst hww
          rw [List.getElem?_set_self hwlt] at h2
          exact absurd (Option.some.inj h2) (by simp)
        · rw [List.getElem?_set_ne (fun hc => hww hc.symm)] at h2
          exact hinv.held_lt w2 idx2 h2
      · exact hinv.done_next
      · exact hinv.log_eq
      · intro w2 h2
        have h3 := hinv.done_holding w2 h2
        by_cases hww : w2 = w
        · subst hww
          show (s.holding.set w2 none)[w2]? = _
          rw [List.getElem?_set_self hwlt]
        · show (s.holding.set w none)[w2]? = _
          rw [List.getElem?_set_ne (fun hc => hww hc.symm)]
          exact h3
    | none =>
      cases hd : s.wdone.getD w false with
      | true => exact hinv
      | false =>
        have hdno : ¬ s.wdone[w]? = some true := by
          intro hc
          rw [List.getD_eq_getElem?_getD, hc] at hd
          exact absurd hd (by simp)
        show MapCCInv items fn W
          (if s.next < items.length then
            { s with next := s.next + 1, holding := s.holding.set w (some s.next),
                     log := s.log ++ [s.next] }
          else { s with next := s.next + 1, wdone := s.wdone.set w true })
        by_cases hnext : s.next < items.length
        · rw [if_pos hnext]
          constructor
          · exact hinv.len_results
          · simp [hinv.len_holding]
          · exact hinv.len_wdone
          · intro i hi hlt
            have hlt0 : i < s.next + 1 := hlt
            by_cases hieq : i = s.next
            · subst hieq
              refine Or.inl ⟨w, ?_⟩
              show (s.holding.set w (some s.next))[w]? = _
              rw [List.getElem?_set_self hwlt]
            · have hlt2 : i < s.next := by omega
              rcases hinv.covered i hi hlt2 with ⟨w2, hw2⟩ | hwr
              · have hww : ¬ w2 = w := by
                  intro hc
                  subst hc
                  rw [hh] at hw2
                  exact absurd (Option.some.inj hw2) (by simp)
                refine Or.inl ⟨w2, ?_⟩
                show (s.holding.set w _)[w2]? = _
                rw [List.getElem?_set_ne (fun hc => hww hc.symm)]
                exact hw2
              · exact Or.inr hwr
          · intro w2 idx2 h2
            by_cases hww : w2 = w
            · subst hww
              rw [List.getElem?_set_self hwlt] at h2
              have := Option.some.inj (Option.some.inj h2)
              omega
            · rw [List.getElem?_set_ne (fun hc => hww hc.symm)] at h2
              exact hinv.held_lt w2 idx2 h2
          · intro hex2
            have := hinv.done_next hex2
            omega
          · show s.log ++ [s.next] = List.range (min (s.next + 1) items.length)
            rw [hinv.log_eq]
            have h1 : min s.next items.length = s.next := by omega
            have h2 : min (s.next + 1) items.length = s.next + 1 := by omega
            rw [h1, h2, List.range_succ]
          · intro w2 h2
            have hww : ¬ w2 = w := by
              intro hc
              subst hc
              exact hdno h2
            have h3 := hinv.done_holding w2 h2
            show (s.holding.set w _)[w2]? = _
            rw [List.getElem?_set_ne (fun hc => hww hc.symm)]
            exact h3
        · rw [if_neg hnext]
          have hwd : w < s.wdone.length := by
            rw [hinv.len_wdone, ← hinv.len_holding]
            exact hwlt
          constructor
          · exact hinv.len_results
          · exact hinv.len_holding
          · simp [hinv.len_wdone]
          · intro i hi hlt
            have hlt0 : i < s.next + 1 := hlt
            have hlt2 : i < s.next := by omega
            exact hinv.covered i hi hlt2
          · exact hinv.held_lt
          · intro _
            show items.length ≤ s.next + 1
            omega
          · rw [hinv.log_eq]
            have heq : min (s.next + 1) items.length = min s.next items.length := by omega
            rw [heq]
          · intro w2 h2
            by_cases hww : w2 = w
            · subst hww
              exact hh
            · rw [List.getElem?_set_ne (fun hc => hww hc.symm)] at h2
              exact hinv.done_holding w2 h2

theorem mapCCInv_run {α R : Type} (items : List α) (fn : α → R) (W : Nat)
    (sched : List Nat) : ∀ s : MapCCState R, MapCCInv items fn W s →
    MapCCInv items fn W (sched.foldl (wStep items fn) s) := by
  induction sched with
  | nil => intro s h; exact h
  | cons w rest ih =>
    intro s h
    exact ih _ (mapCCInv_step items fn W s h w)

theorem mapCC_terminal {α R : Type} (items : List α) (fn : α → R) (W : Nat)
    (hW : 1 ≤ W) (s : MapCCState R) (hinv : MapCCInv items fn W s)
    (hdone : allWorkersDone s = true) :
    s.results = items.map (fun a => some (fn a)) ∧
    s.log = List.range items.length := by
  have hall : ∀ w, w < W → s.wdone[w]? = some true := by
    intro w hw
    have hlen : w < s.wdone.length := by rw [hinv.len_wdone]; exact hw
    have hmem : s.wdone[w] ∈ s.wdone := List.getElem_mem hlen
    have := List.all_eq_true.mp hdone _ hmem
    rw [List.getElem?_eq_getElem hlen]
    simp only [this]
  have hnext : items.length ≤ s.next := hinv.done_next ⟨0, hall 0 hW⟩
  constructor
  · apply List.ext_getElem?
    intro i
    by_cases hi : i < items.length
    · rcases hinv.covered i hi (by omega) with ⟨w2, hw2⟩ | hwr
      · exfalso
        have hw2lt : w2 < W := by
          by_contra hge
          rw [List.getElem?_eq_none (by rw [hinv.len_holding]; omega)] at hw2
          exact absurd hw2 (by simp)
        have := hinv.done_holding w2 (hall w2 hw2lt)
        rw [this] at hw2
        exact absurd (Option.some.inj hw2) (by simp)
      · rw [hwr, List.getElem?_map, List.getElem?_eq_getElem hi]
        rfl
    · rw [List.getElem?_eq_none (by rw [hinv.len_results]; omega),
        List.getElem?_eq_none (by rw [List.length_map]; omega)]
  · rw [hinv.log_eq]
    have : min s.next items.length = items.length := by omega
    rw [this]

/-- C10: for every item list, function, concurrency limit (including limits
`≤ 0` and limits above the item count) and every schedule under which all
workers of `mapWithConcurrency` have returned, the machine's result array
equals the sequential map of the function over the items (each slot filled
at the item's original index), and the invocation log is exactly one call
per index, in ascending order — the positional alignment the resolver and
the rebuild path rely on. -/
theorem C10_mapWithConcurrency {α R : Type} (items : List α) (fn : α → R)
    (limit : Int) (sched : List Nat)
    (hterm : allWorkersDone (runMapCC items fn limit sched) = true) :
    (runMapCC items fn limit sched).results = items.map (fun a => some (fn a)) ∧
    (runMapCC items fn limit sched).log = List.range items.length := by
  have hW : 1 ≤ (max 1 limit).toNat := by
    have h1 : (1 : Int) ≤ max 1 limit := le_max_left 1 limit
    omega
  exact mapCC_terminal items fn (max 1 limit).toNat hW _
    (mapCCInv_run items fn (max 1 limit).toNat sched _ (mapCCInv_init items fn _)) hterm

/-- C10 witness: a two-worker run over three items in which worker 0
processes every item and worker 1 only observes exhaustion; the results
equal the sequential map and the log is one invocation per index. -/
theorem C10_mapWithConcurrency_witness :
    allWorkersDone (runMapCC [10, 20, 30] (fun a => a + 1) 2
      [0, 0, 0, 0, 0, 0, 0, 1]) = true ∧
    (runMapCC [10, 20, 30] (fun a => a + 1) 2 [0, 0, 0, 0, 0, 0, 0, 1]).results =
      [some 11, some 21, some 31] ∧
    (runMapCC [10, 20, 30] (fun a => a + 1) 2 [0, 0, 0, 0, 0, 0, 0, 1]).log =
      [0, 1, 2] := by
  refine ⟨by decide, ?_, ?_⟩
  · exact (C10_mapWithConcurrency [10, 20, 30] (fun a => a + 1) 2
      [0, 0, 0, 0, 0, 0, 0, 1] (by decide)).1
  · exact (C10_mapWithConcurrency [10, 20, 30] (fun a => a + 1) 2
      [0, 0, 0, 0, 0, 0, 0, 1] (by decide)).2
